import Mathlib

/-!
# Verification development for `shared/cgo/process_utils.h` (lxc/incus)

A shallow embedding of the helpers of `process_utils.h`:

* the blocking wait helpers `wait_for_pid` and `wait_for_pid_status_nointr`,
  run against an explicit sequence of `waitpid` outcomes;
* the null-terminated list builder `append_null_to_list` / `push_vargs`,
  run against explicit allocator answers;
* the truncating string copy `strlcpy`;
* the discovery phase of `setproctitle`, run on the bytes read from
  `/proc/self/stat`, and `setproctitle` itself, run against the answers of
  its environment (file, allocator, `brk`, `prctl`);
* the liveness probe `process_still_alive`, run against the kernel's answer.

Machine integers are `Int` / `Nat`; pointers are natural numbers with `0`
standing for `NULL`; bytes are natural numbers with `0` standing for NUL.
-/

namespace ProcessUtils

/-! ## Constants and macros of the C library used by the source -/

/-- Linux value of `EINTR` (`<errno.h>`). -/
def EINTR : Int := 4

/-- Linux value of `ENOMEM` (`<errno.h>`). -/
def ENOMEM : Int := 12

/-- `WTERMSIG(status)`, that is `status & 0x7f`: the low seven bits of the
two's complement `int`, which is the Euclidean remainder modulo 128. -/
def WTERMSIG (status : Int) : Int := status % 128

/-- `WIFEXITED(status)`, that is `WTERMSIG(status) == 0`. -/
def WIFEXITED (status : Int) : Bool := WTERMSIG status == 0

/-- `WEXITSTATUS(status)`, that is `(status & 0xff00) >> 8`: bits 8..15 of the
two's complement `int`. -/
def WEXITSTATUS (status : Int) : Int := (status / 256) % 256

/-! ## Blocking wait layer -/

/-- One answer of `waitpid(pid, &status, 0)`: the returned value, the value
stored through `&status` (meaningful when `ret` is not `-1`) and the value of
`errno` after the call (meaningful when `ret` is `-1`). -/
structure WaitOutcome where
  ret : Int
  status : Int
  errno : Int
  deriving DecidableEq, Repr

/-- `wait_for_pid(pid)` run against the successive answers of `waitpid`.
Each `goto again` consumes the next answer; `none` means that the answers
given so far have all been retried and the call is still blocked. -/
def wait_for_pid (pid : Int) : List WaitOutcome → Option Int
  | [] => none
  | o :: rest =>
    if o.ret = -1 then
      if o.errno = EINTR then wait_for_pid pid rest
      else some (-1)
    else if o.ret ≠ pid then wait_for_pid pid rest
    else if !WIFEXITED o.status || WEXITSTATUS o.status != 0 then some (-1)
    else some 0

/-- `wait_for_pid_status_nointr(pid)` run against the successive answers of
`waitpid`; `none` means that the call is still blocked. -/
def wait_for_pid_status_nointr (pid : Int) : List WaitOutcome → Option Int
  | [] => none
  | o :: rest =>
    if o.ret = -1 then
      if o.errno = EINTR then wait_for_pid_status_nointr pid rest
      else some (-1)
    else if o.ret ≠ pid then wait_for_pid_status_nointr pid rest
    else some o.status

/-- An answer of `waitpid` that failed with `errno == EINTR`. -/
def WaitOutcome.isEintr (o : WaitOutcome) : Prop := o.ret = -1 ∧ o.errno = EINTR

instance (o : WaitOutcome) : Decidable o.isEintr := by
  unfold WaitOutcome.isEintr; infer_instance

/-- An answer of `waitpid` that succeeded and reports a pid other than the
requested one. -/
def WaitOutcome.isMismatch (pid : Int) (o : WaitOutcome) : Prop :=
  o.ret ≠ -1 ∧ o.ret ≠ pid

instance (pid : Int) (o : WaitOutcome) : Decidable (o.isMismatch pid) := by
  unfold WaitOutcome.isMismatch; infer_instance

/-! ## Null-terminated list builder -/

/-- A pointer value; `0` is `NULL`. -/
abbrev Ptr := Nat

/-- `ret_errno(e)` of `macro.h`: sets `errno` to `e` and evaluates to `-e`.
The embedding does not track `errno`, only the value. -/
def ret_errno (e : Int) : Int := -e

/-- The variable `*list` together with the allocation it points to: `addr` is
the pointer value (`0` for `NULL`), `slots` the pointer slots of that
allocation, in order. -/
structure PtrList where
  addr : Ptr
  slots : List Ptr
  deriving DecidableEq, Repr

/-- The slots reachable through `*list`: none when the pointer is `NULL`. -/
def PtrList.content (l : PtrList) : List Ptr :=
  if l.addr = 0 then [] else l.slots

/-- One answer of `realloc`: the returned pointer (`0` when the reallocation
fails) and, for a successful answer, the indeterminate content `junk i` found
in a slot `i` that the old allocation did not have. -/
structure ReallocAnswer where
  addr : Ptr
  junk : Nat → Ptr

/-- Content of the block returned by a successful `realloc(old, n * sizeof(void **))`:
the first `n` slots of the old block, followed by indeterminate slots. -/
def realloc_slots (old : List Ptr) (n : Nat) (a : ReallocAnswer) : List Ptr :=
  old.take n ++ (List.range (n - old.length)).map (fun i => a.junk (old.length + i))

/-- The loop `for (; (*list)[newentry]; newentry++);`: index of the first
`NULL` slot. The C loop has no bound; on an array without a `NULL` slot it
reads past the allocation (undefined behaviour), where this function stops at
the end of the array. -/
def scan_null : List Ptr → Nat
  | [] => 0
  | p :: ps => if p ≠ 0 then scan_null ps + 1 else 0

/-- `append_null_to_list(list)` run against the answer of `realloc`: the
returned `int` and the resulting `*list`. -/
def append_null_to_list (l : PtrList) (a : ReallocAnswer) : Int × PtrList :=
  let newentry : Nat := if l.addr ≠ 0 then scan_null l.slots else 0
  let new_list := a.addr
  if new_list = 0 then
    (ret_errno ENOMEM, l)
  else
    ((newentry : Int),
      { addr := new_list,
        slots := (realloc_slots l.content (newentry + 2) a).set (newentry + 1) 0 })

/-- The C string starting at the beginning of a byte buffer: the bytes before
the first NUL. -/
def cstr : List Nat → List Nat
  | [] => []
  | c :: cs => if c ≠ 0 then c :: cstr cs else []

/-- The live blocks made by `strdup`: address and the string held. -/
abbrev StrHeap := List (Ptr × List Nat)

/-- `free(p)`: the block at `p` is no longer live; `free(NULL)` does nothing. -/
def free (h : StrHeap) (p : Ptr) : StrHeap :=
  if p = 0 then h else h.eraseP (fun b => b.1 == p)

/-- The allocator answers consumed by one call of `push_vargs`: the pointer
returned by `strdup` (`0` on failure) and the answer of the `realloc` made by
`append_null_to_list` (consulted only when `strdup` succeeded). -/
structure PushAnswers where
  dup : Ptr
  re : ReallocAnswer

/-- Result of `push_vargs`: the returned `int`, the live string blocks and
`*list`. -/
@[ext]
structure PushResult where
  ret : Int
  heap : StrHeap
  list : PtrList
  deriving DecidableEq, Repr

/-- `push_vargs(list, entry)` run against the allocator answers. The local
`copy` is declared `__do_free`, so it is freed on every return that has not
moved it out with `move_ptr`. -/
def push_vargs (h : StrHeap) (l : PtrList) (entry : List Nat) (a : PushAnswers) :
    PushResult :=
  let copy := a.dup
  if copy = 0 then
    { ret := ret_errno ENOMEM, heap := h, list := l }
  else
    let h1 : StrHeap := (copy, cstr entry) :: h
    let r := append_null_to_list l a.re
    if r.1 < 0 then
      { ret := r.1, heap := free h1 copy, list := r.2 }
    else
      { ret := 0, heap := h1,
        list := { r.2 with slots := r.2.slots.set r.1.toNat copy } }

/-- Successive calls of `push_vargs` on the same list variable, one per
string, each with its allocator answers; the returned values are collected in
call order. -/
def push_all (h : StrHeap) (l : PtrList) :
    List (List Nat × PushAnswers) → List Int × StrHeap × PtrList
  | [] => ([], h, l)
  | (entry, a) :: rest =>
    let r := push_vargs h l entry a
    let t := push_all r.heap r.list rest
    (r.ret :: t.1, t.2.1, t.2.2)

/-- The list variable `l` holds exactly the non-null pointers `entries`: it is
either the `NULL` list (no entry), or an array made of the entries followed by
the `NULL` sentinel. -/
def IsList (l : PtrList) (entries : List Ptr) : Prop :=
  (∀ e ∈ entries, e ≠ 0) ∧
  ((l.addr = 0 ∧ entries = []) ∨ (l.addr ≠ 0 ∧ l.slots = entries ++ [0]))

instance (l : PtrList) (entries : List Ptr) : Decidable (IsList l entries) := by
  unfold IsList; infer_instance

/-- The block that a successful `strdup` of the call `c` makes live. -/
def dup_block (c : List Nat × PushAnswers) : Ptr × List Nat := (c.2.dup, cstr c.1)

/-! ## Truncating string copy -/

/-- `strlen(s)`: number of bytes before the first NUL. -/
def strlen : List Nat → Nat
  | [] => 0
  | c :: cs => if c ≠ 0 then strlen cs + 1 else 0

/-- `memcpy(dest, src, n)` on byte buffers: bytes `0..n-1` of `dest` are
overwritten with those of `src`. -/
def memcpy (dest src : List Nat) : Nat → List Nat
  | 0 => dest
  | n + 1 => (memcpy dest src n).set n (src.getD n 0)

/-- `strlcpy(dest, src, size)`: the returned `size_t` and the content of the
destination buffer after the call. -/
def strlcpy (dest src : List Nat) (size : Nat) : Nat × List Nat :=
  let ret := strlen src
  if size ≠ 0 then
    let len := if ret ≥ size then size - 1 else ret
    (ret, (memcpy dest src len).set len 0)
  else
    (ret, dest)

/-! ## Discovery phase of `setproctitle` -/

/-- `strrchr(s, c)` for a byte `c` other than NUL: the part of the string from
the last occurrence of `c` on, `none` for a null pointer. A pointer into the
string is represented by the part of the string it points to. -/
def strrchr : List Nat → Nat → Option (List Nat)
  | [], _ => none
  | x :: xs, c =>
    match strrchr xs c with
    | some r => some r
    | none => if x = c then some (x :: xs) else none

/-- `strchr(s, c)` for a byte `c` other than NUL: the part of the string from
the first occurrence of `c` on, `none` for a null pointer. -/
def strchr : List Nat → Nat → Option (List Nat)
  | [], _ => none
  | x :: xs, c => if x = c then some (x :: xs) else strchr xs c

/-- The loop `for (i = 0; i < n; i++) { buf_ptr = strchr(buf_ptr + 1, ' ');
if (!buf_ptr) return -1; }`; `none` is the early return. -/
def skip_fields : Nat → List Nat → Option (List Nat)
  | 0, p => some p
  | n + 1, p =>
    match strchr (p.drop 1) 32 with
    | none => none
    | some q => skip_fields n q

/-- `isspace` in the C locale. -/
def isspace (c : Nat) : Bool := c == 32 || (9 ≤ c && c ≤ 13)

/-- `isdigit`. -/
def isdigit (c : Nat) : Bool := 48 ≤ c && c ≤ 57

/-- Value of a string of decimal digits. -/
def decimal (ds : List Nat) : Nat := ds.foldl (fun v d => 10 * v + (d - 48)) 0

/-- The value `strtoul` gives to digits with an optional minus sign for a
64-bit `unsigned long`: `ULONG_MAX` when the digits overflow, the negation
modulo `2^64` under a minus sign. -/
def strtoul_value (neg : Bool) (ds : List Nat) : Nat :=
  let v := decimal ds
  if v ≥ 2 ^ 64 then 2 ^ 64 - 1
  else if neg then (2 ^ 64 - v) % 2 ^ 64
  else v

/-- One `%u`-family conversion of `sscanf` (such as `PRIu64`) without field
width: skips white space, accepts an optional sign and at least one digit.
Returns the converted value and the rest of the input, `none` on a matching or
input failure. -/
def scan_u (s : List Nat) : Option (Nat × List Nat) :=
  let s1 := s.dropWhile isspace
  let signed : Bool × List Nat :=
    match s1 with
    | 43 :: t => (false, t)
    | 45 :: t => (true, t)
    | _ => (false, s1)
  let ds := signed.2.takeWhile isdigit
  if ds.isEmpty then none
  else some (strtoul_value signed.1 ds, signed.2.dropWhile isdigit)

/-- The directives of the two `sscanf` formats of `setproctitle`: white space,
and an unsigned decimal conversion that is assigned or suppressed (`%*u`). -/
inductive Directive where
  | ws
  | u (assign : Bool)
  deriving DecidableEq, Repr

/-- `sscanf(s, format, ...)` for a format made of these directives: the values
assigned, in order. The `int` returned by `sscanf` is their number (an `EOF`
return is represented by the empty list; the callers only compare the count
with the number of conversions). -/
def sscanf : List Directive → List Nat → List Nat
  | [], _ => []
  | Directive.ws :: ds, s => sscanf ds (s.dropWhile isspace)
  | Directive.u assign :: ds, s =>
    match scan_u s with
    | none => []
    | some (v, rest) => if assign then v :: sscanf ds rest else sscanf ds rest

/-- The format `"%" PRIu64 " %" PRIu64 " %" PRIu64`. -/
def fmt_code_stack : List Directive :=
  [.u true, .ws, .u true, .ws, .u true]

/-- The format `"%" PRIu64 " %" PRIu64 " %" PRIu64 " %*u %*u %" PRIu64 " %" PRIu64`. -/
def fmt_data_env : List Directive :=
  [.u true, .ws, .u true, .ws, .u true, .ws, .u false, .ws, .u false, .ws,
   .u true, .ws, .u true]

/-- The boundaries read from `/proc/self/stat`. -/
structure Discovered where
  start_code : Nat
  end_code : Nat
  start_stack : Nat
  start_data : Nat
  end_data : Nat
  start_brk : Nat
  env_start : Nat
  env_end : Nat
  deriving DecidableEq, Repr

/-- The discovery phase of `setproctitle`, from `strrchr(buf, ')')` to the
second `sscanf`, on the bytes that `read_nointr` stored in `buf` (the source
then stores a NUL after them). `none` is a `return -1`. -/
def setproctitle_discover (buf : List Nat) : Option Discovered :=
  match strrchr (cstr buf) 41 with
  | none => none
  | some p0 =>
    match skip_fields 24 p0 with
    | none => none
    | some p1 =>
      match sscanf fmt_code_stack p1 with
      | [start_code, end_code, start_stack] =>
        match skip_fields 19 p1 with
        | none => none
        | some p2 =>
          match sscanf fmt_data_env p2 with
          | [start_data, end_data, start_brk, env_start, env_end] =>
            some { start_code := start_code, end_code := end_code,
                   start_stack := start_stack, start_data := start_data,
                   end_data := end_data, start_brk := start_brk,
                   env_start := env_start, env_end := env_end }
          | _ => none
      | _ => none

/-- The bytes of a string literal. -/
def bytes (s : String) : List Nat := s.data.map Char.toNat

/-- Fields of a status line, each preceded by its separating space, followed
by the rest of the line. -/
def join_fields : List (List Nat) → List Nat → List Nat
  | [], tail => tail
  | f :: fs, tail => 32 :: (f ++ join_fields fs tail)

/-- A status line `pid (comm) f3 f4 ...`: the fields after the name are given
from field 3 on. -/
def status_line (pid comm : List Nat) (fields : List (List Nat)) (tail : List Nat) :
    List Nat :=
  pid ++ 32 :: 40 :: (comm ++ 41 :: join_fields fields tail)

/-- Field number `k` of a status line (`k ≥ 3`) whose fields after the name
are `fields`. -/
def field (fields : List (List Nat)) (k : Nat) : List Nat := fields.getD (k - 3) []

/-- A non-empty string of decimal digits. -/
def IsNumber (f : List Nat) : Prop := f ≠ [] ∧ ∀ c ∈ f, isdigit c = true

instance (f : List Nat) : Decidable (IsNumber f) := by
  unfold IsNumber; infer_instance

/-- A sample status line: the name is `a) (b c`, field 3 is the state `S`,
field 7 is negative, the fields from 8 on carry their own number. -/
def sample_fields : List (List Nat) :=
  [bytes "S", bytes "1", bytes "4242", bytes "4242", bytes "-1"] ++
  (List.range 45).map (fun i => [48 + (i + 8) / 10, 48 + (i + 8) % 10])

/-! ## Process handle layer -/

/-- Linux system call number `__NR_pidfd_send_signal` (`syscall_numbers.h`). -/
def NR_pidfd_send_signal : Nat := 424

/-- Linux system call number `__NR_pidfd_open` (`syscall_numbers.h`). -/
def NR_pidfd_open : Nat := 434

/-- The kernel seen through `syscall(nr, args...)`: the value returned for a
system call number and its arguments. -/
abbrev Syscall := Nat → List Int → Int

/-- `incus_pidfd_open(pid, flags)`. -/
def incus_pidfd_open (sys : Syscall) (pid : Int) (flags : Int) : Int :=
  sys NR_pidfd_open [pid, flags]

/-- `incus_pidfd_send_signal(pidfd, sig, info, flags)`; `info` is the pointer
value, `0` for `NULL`. -/
def incus_pidfd_send_signal (sys : Syscall) (pidfd sig info flags : Int) : Int :=
  sys NR_pidfd_send_signal [pidfd, sig, info, flags]

/-- `process_still_alive(pidfd)`. -/
def process_still_alive (sys : Syscall) (pidfd : Int) : Bool :=
  incus_pidfd_send_signal sys pidfd 0 0 0 == 0

/-! ## Collapse of a raw status -/

/-- The collapse of a raw wait status to success or failure, in the words of
the specification: success (`0`) when the status decodes as a normal exit with
code `0`, failure (`-1`) otherwise. -/
def collapse_status (r : Int) : Int :=
  if WIFEXITED r = true ∧ WEXITSTATUS r = 0 then 0 else -1

/-! ## `setproctitle` -/

/-- The `struct prctl_mm_map` passed to `prctl(PR_SET_MM, PR_SET_MM_MAP, ...)`.
The field `exe_fd` is initialised with `-1`. -/
structure MmMap where
  start_code : Nat
  end_code : Nat
  start_data : Nat
  end_data : Nat
  start_brk : Nat
  brk : Nat
  start_stack : Nat
  arg_start : Nat
  arg_end : Nat
  env_start : Nat
  env_end : Nat
  auxv : Ptr
  auxv_size : Nat
  exe_fd : Int
  deriving DecidableEq, Repr

/-- The state that outlives a call of `setproctitle`: the static pointer
`proctitle`, the bytes of the block it points to, and the memory layout that
the kernel currently publishes for the process. -/
structure TitleState where
  proctitle : Ptr
  buf : List Nat
  mm : MmMap
  deriving DecidableEq, Repr

/-- The bytes reachable through `proctitle`: none when the pointer is `NULL`. -/
def TitleState.content (st : TitleState) : List Nat :=
  if st.proctitle = 0 then [] else st.buf

/-- The answers of the environment during one call of `setproctitle`:
whether `fopen` returned `NULL`, the value of `fileno`, the bytes stored by
`read_nointr` (`none` when it returns a negative value; the returned count is
the number of bytes, at most `sizeof(buf) - 1`), the answer of `realloc`,
whether a `realloc` to size `0` that returns `NULL` has released the old
block (glibc does; the C standard leaves it to the implementation), the value
returned by the `brk` system call, and the value returned by `prctl`. -/
structure TitleEnv where
  fopen_null : Bool
  fd : Int
  stat : Option (List Nat)
  re : ReallocAnswer
  free_on_zero : Bool
  brk : Nat
  prctl : Int

/-- What `setproctitle` does to its environment, in program order. -/
inductive TitleEvent where
  | realloc (size : Nat)
  | brk
  | publish (map : MmMap)
  | copy (src : List Nat) (size : Nat)
  deriving DecidableEq, Repr

/-- Result of `setproctitle`: the returned `int`, the state after the call and
the events of the call. -/
structure TitleResult where
  ret : Int
  state : TitleState
  trace : List TitleEvent
  deriving DecidableEq, Repr

/-- Conversion of a `size_t` value to `int`, as in `int len = strlen(title) + 1`:
the value modulo `2^32`, read as a two's complement number. -/
def to_int32 (n : Nat) : Int := ((n : Int) + 2 ^ 31) % 2 ^ 32 - 2 ^ 31

/-- Conversion of an `int` to a 64-bit unsigned type (`size_t`, `uint64_t`). -/
def to_uint64 (i : Int) : Nat := (i % 2 ^ 64).toNat

/-- Content of the block returned by a successful `realloc(old, n)` on bytes:
the first `n` bytes of the old block, followed by indeterminate bytes. -/
def realloc_bytes (old : List Nat) (n : Nat) (a : ReallocAnswer) : List Nat :=
  old.take n ++ (List.range (n - old.length)).map (fun i => a.junk (old.length + i))

/-- `setproctitle(title)` run against the answers of the environment. The
kernel replaces the published layout exactly when `prctl` returns `0`. When
`realloc` returns `NULL` the block is left as it was, except for a request of
size `0` on an allocator that releases the block: the static pointer then
refers to a released block, which holds no byte. -/
def setproctitle (st : TitleState) (title : List Nat) (env : TitleEnv) : TitleResult :=
  if env.fopen_null then { ret := -1, state := st, trace := [] }
  else if env.fd < 0 then { ret := -1, state := st, trace := [] }
  else
    match env.stat with
    | none => { ret := -1, state := st, trace := [] }
    | some bytes_read =>
      if bytes_read.length = 0 then { ret := -1, state := st, trace := [] }
      else
        match setproctitle_discover bytes_read with
        | none => { ret := -1, state := st, trace := [] }
        | some d =>
          let len : Int := to_int32 (strlen title + 1)
          let tmp_proctitle := env.re.addr
          if tmp_proctitle = 0 then
            { ret := -1,
              state :=
                if to_uint64 len = 0 ∧ env.free_on_zero = true ∧ st.proctitle ≠ 0 then
                  { st with buf := [] }
                else st,
              trace := [TitleEvent.realloc (to_uint64 len)] }
          else
            let buf1 := realloc_bytes st.content (to_uint64 len) env.re
            let arg_start : Nat := tmp_proctitle
            let arg_end : Nat := to_uint64 ((arg_start : Int) + len)
            let brk_val := env.brk
            let prctl_map : MmMap :=
              { start_code := d.start_code, end_code := d.end_code,
                start_stack := d.start_stack, start_data := d.start_data,
                end_data := d.end_data, start_brk := d.start_brk, brk := brk_val,
                arg_start := arg_start, arg_end := arg_end,
                env_start := d.env_start, env_end := d.env_end,
                auxv := 0, auxv_size := 0, exe_fd := -1 }
            let ret := env.prctl
            if ret = 0 then
              { ret := ret,
                state := { proctitle := tmp_proctitle,
                           buf := (strlcpy buf1 title (to_uint64 len)).2,
                           mm := prctl_map },
                trace := [TitleEvent.realloc (to_uint64 len), TitleEvent.brk,
                          TitleEvent.publish prctl_map,
                          TitleEvent.copy title (to_uint64 len)] }
            else
              { ret := ret,
                state := { proctitle := tmp_proctitle, buf := buf1, mm := st.mm },
                trace := [TitleEvent.realloc (to_uint64 len), TitleEvent.brk,
                          TitleEvent.publish prctl_map] }

/-- Successive calls of `setproctitle`, one per title, each with the answers
of its environment: the returned values in call order and the final state. -/
def setproctitle_seq (st : TitleState) :
    List (List Nat × TitleEnv) → List Int × TitleState
  | [] => ([], st)
  | (title, env) :: rest =>
    let r := setproctitle st title env
    let t := setproctitle_seq r.state rest
    (r.ret :: t.1, t.2)

/-- The title an observer reads through the published argument region: the
bytes of the title buffer when the region `[arg_start, arg_end)` is exactly
that buffer, `none` when the region is not backed by the title buffer. -/
def visible_title (st : TitleState) : Option (List Nat) :=
  if st.proctitle ≠ 0 ∧ st.mm.arg_start = st.proctitle ∧
      st.mm.arg_end = st.mm.arg_start + st.buf.length then some st.buf
  else none

/-- The value of `int len` in `setproctitle`: `strlen(title) + 1` converted
to `int`. -/
def title_len (title : List Nat) : Int := to_int32 (strlen title + 1)

/-- The value of `len` where `setproctitle` passes it as a `size_t`, to
`realloc` and to `strlcpy`. -/
def title_size (title : List Nat) : Nat := to_uint64 (title_len title)

/-- The value of `arg_end` in `setproctitle` for a title buffer at `addr`:
`arg_start + len` in `uint64_t`. -/
def title_arg_end (addr : Ptr) (title : List Nat) : Nat :=
  to_uint64 ((addr : Int) + title_len title)

/-- The environment lets a call of `setproctitle` reach its `realloc`: the
file is opened and read, and the discovery phase yields `d`. -/
def ReachesRealloc (env : TitleEnv) (d : Discovered) : Prop :=
  env.fopen_null = false ∧ 0 ≤ env.fd ∧
  env.stat.map setproctitle_discover = some (some d) ∧ env.stat ≠ some []

instance (env : TitleEnv) (d : Discovered) : Decidable (ReachesRealloc env d) := by
  unfold ReachesRealloc; infer_instance

/-- The environment lets a call of `setproctitle` reach the `prctl` call: it
reaches `realloc`, and `realloc` succeeds. -/
def ReachesPrctl (env : TitleEnv) (d : Discovered) : Prop :=
  ReachesRealloc env d ∧ env.re.addr ≠ 0

instance (env : TitleEnv) (d : Discovered) : Decidable (ReachesPrctl env d) := by
  unfold ReachesPrctl; infer_instance

/-- The layout that `setproctitle` passes to `prctl` for the discovered
boundaries `d`, the `brk` value `brk_val`, a title buffer at `addr` and the
value `arg_end`. -/
def title_map (d : Discovered) (brk_val : Nat) (addr : Ptr) (arg_end : Nat) : MmMap :=
  { start_code := d.start_code, end_code := d.end_code,
    start_stack := d.start_stack, start_data := d.start_data,
    end_data := d.end_data, start_brk := d.start_brk, brk := brk_val,
    arg_start := addr, arg_end := arg_end,
    env_start := d.env_start, env_end := d.env_end,
    auxv := 0, auxv_size := 0, exe_fd := -1 }

/-- A title of `n` bytes `a`, with its terminating NUL. -/
def long_title (n : Nat) : List Nat := List.replicate n 97 ++ [0]

/-- A field that cannot be read as a number: its first byte is neither a
digit, nor a sign, nor white space. -/
def NotNumeric (f : List Nat) : Prop :=
  match f with
  | [] => False
  | c :: _ => isspace c = false ∧ isdigit c = false ∧ c ≠ 43 ∧ c ≠ 45

instance (f : List Nat) : Decidable (NotNumeric f) := by
  unfold NotNumeric; split <;> infer_instance

/-- A sample buffer read from `/proc/self/stat`. -/
def sample_stat : List Nat :=
  status_line [52, 50, 52, 50] [97, 41, 32, 40, 98, 32, 99] sample_fields [10]

/-- The sample line with field 26 left empty: two spaces follow field 25. -/
def sample_fields_gap : List (List Nat) :=
  sample_fields.take 23 ++ [[]] ++ sample_fields.drop 24

/-- The boundaries that the sample line holds. -/
def sample_discovered : Discovered :=
  { start_code := 26, end_code := 27, start_stack := 28, start_data := 45,
    end_data := 46, start_brk := 47, env_start := 50, env_end := 51 }

/-- A sample environment in which every step of `setproctitle` up to `realloc`
succeeds; `realloc` answers `addr` and `prctl` answers `prctl`. -/
def sample_env (addr : Ptr) (prctl : Int) : TitleEnv :=
  { fopen_null := false, fd := 3, stat := some sample_stat,
    re := { addr := addr, junk := fun _ => 170 }, free_on_zero := true,
    brk := 9000, prctl := prctl }

/-- A sample initial state: no title buffer yet, and a published layout whose
argument region is the original command line. -/
def sample_state : TitleState :=
  { proctitle := 0, buf := [],
    mm := { start_code := 1, end_code := 2, start_data := 3, end_data := 4,
            start_brk := 5, brk := 6, start_stack := 7, arg_start := 700,
            arg_end := 720, env_start := 720, env_end := 800,
            auxv := 0, auxv_size := 0, exe_fd := -1 } }

/-! # Theorems -/

/-! ### Lemmas on the wait loops -/

/-- On a non-negative status the remainder modulo 128 is the bitwise
`status & 0x7f`. -/
theorem WTERMSIG_eq_land (n : Nat) : WTERMSIG (n : Int) = Int.land (n : Int) 127 := by
  have h : n &&& 127 = n % 128 := Nat.and_pow_two_sub_one_eq_mod n 7
  show (n : Int) % 128 = Int.land (Int.ofNat n) (Int.ofNat 127)
  simp only [Int.land]
  rw [h]
  rfl

/-- On a non-negative status `WEXITSTATUS` is the bitwise `(status >> 8) & 0xff`. -/
theorem WEXITSTATUS_eq_land (n : Nat) :
    WEXITSTATUS (n : Int) = Int.land ((n : Int) >>> 8) 255 := by
  have h : (n >>> 8) &&& 255 = (n >>> 8) % 256 := Nat.and_pow_two_sub_one_eq_mod (n >>> 8) 8
  have h2 : ((n : Int) >>> 8) = ((n >>> 8 : Nat) : Int) := rfl
  rw [h2]
  show ((n : Int) / 256) % 256 = Int.land (Int.ofNat (n >>> 8)) (Int.ofNat 255)
  simp only [Int.land]
  rw [h, Nat.shiftRight_eq_div_pow]
  rfl

theorem wait_for_pid_retry (pid : Int) (pre rest : List WaitOutcome)
    (h : ∀ o ∈ pre, o.isEintr ∨ o.isMismatch pid) :
    wait_for_pid pid (pre ++ rest) = wait_for_pid pid rest := by
  induction pre with
  | nil => rfl
  | cons o pre ih =>
    have ho := h o (List.mem_cons_self _ _)
    have ih := ih (fun x hx => h x (List.mem_cons_of_mem _ hx))
    rcases ho with ⟨h1, h2⟩ | ⟨h1, h2⟩
    · simp [wait_for_pid, h1, h2, ih]
    · simp [wait_for_pid, h1, h2, ih]

theorem wait_for_pid_status_nointr_retry (pid : Int) (pre rest : List WaitOutcome)
    (h : ∀ o ∈ pre, o.isEintr ∨ o.isMismatch pid) :
    wait_for_pid_status_nointr pid (pre ++ rest) = wait_for_pid_status_nointr pid rest := by
  induction pre with
  | nil => rfl
  | cons o pre ih =>
    have ho := h o (List.mem_cons_self _ _)
    have ih := ih (fun x hx => h x (List.mem_cons_of_mem _ hx))
    rcases ho with ⟨h1, h2⟩ | ⟨h1, h2⟩
    · simp [wait_for_pid_status_nointr, h1, h2, ih]
    · simp [wait_for_pid_status_nointr, h1, h2, ih]

/-- Every value returned by `wait_for_pid_status_nointr` comes from the first
answer that is neither an interruption nor a mismatch. -/
theorem wait_for_pid_status_nointr_source (pid : Int) (outs : List WaitOutcome) (v : Int)
    (h : wait_for_pid_status_nointr pid outs = some v) :
    ∃ pre o rest, outs = pre ++ o :: rest ∧
      (∀ p ∈ pre, p.isEintr ∨ p.isMismatch pid) ∧
      ((o.ret = -1 ∧ o.errno ≠ EINTR ∧ v = -1) ∨
       (o.ret ≠ -1 ∧ o.ret = pid ∧ v = o.status)) := by
  induction outs with
  | nil => simp [wait_for_pid_status_nointr] at h
  | cons o outs ih =>
    unfold wait_for_pid_status_nointr at h
    by_cases h1 : o.ret = -1
    · by_cases h2 : o.errno = EINTR
      · rw [if_pos h1, if_pos h2] at h
        obtain ⟨pre, o', rest, e, hp, ho⟩ := ih h
        refine ⟨o :: pre, o', rest, by simp [e], ?_, ho⟩
        intro p hp'
        rcases List.mem_cons.mp hp' with rfl | hp'
        · exact Or.inl ⟨h1, h2⟩
        · exact hp p hp'
      · rw [if_pos h1, if_neg h2] at h
        refine ⟨[], o, outs, rfl, by simp, Or.inl ⟨h1, h2, ?_⟩⟩
        exact (Option.some.inj h).symm
    · by_cases h3 : o.ret = pid
      · rw [if_neg h1, if_neg (not_not_intro h3)] at h
        refine ⟨[], o, outs, rfl, by simp, Or.inr ⟨h1, h3, ?_⟩⟩
        exact (Option.some.inj h).symm
      · rw [if_neg h1, if_pos h3] at h
        obtain ⟨pre, o', rest, e, hp, ho⟩ := ih h
        refine ⟨o :: pre, o', rest, by simp [e], ?_, ho⟩
        intro p hp'
        rcases List.mem_cons.mp hp' with rfl | hp'
        · exact Or.inr ⟨h1, h3⟩
        · exact hp p hp'

/-- Every value returned by `wait_for_pid` comes from the first answer that is
neither an interruption nor a mismatch. -/
theorem wait_for_pid_source (pid : Int) (outs : List WaitOutcome) (v : Int)
    (h : wait_for_pid pid outs = some v) :
    ∃ pre o rest, outs = pre ++ o :: rest ∧
      (∀ p ∈ pre, p.isEintr ∨ p.isMismatch pid) ∧
      ((o.ret = -1 ∧ o.errno ≠ EINTR ∧ v = -1) ∨
       (o.ret ≠ -1 ∧ o.ret = pid ∧
         v = if WIFEXITED o.status = true ∧ WEXITSTATUS o.status = 0 then 0 else -1)) := by
  induction outs with
  | nil => simp [wait_for_pid] at h
  | cons o outs ih =>
    unfold wait_for_pid at h
    by_cases h1 : o.ret = -1
    · by_cases h2 : o.errno = EINTR
      · rw [if_pos h1, if_pos h2] at h
        obtain ⟨pre, o', rest, e, hp, ho⟩ := ih h
        refine ⟨o :: pre, o', rest, by simp [e], ?_, ho⟩
        intro p hp'
        rcases List.mem_cons.mp hp' with rfl | hp'
        · exact Or.inl ⟨h1, h2⟩
        · exact hp p hp'
      · rw [if_pos h1, if_neg h2] at h
        refine ⟨[], o, outs, rfl, by simp, Or.inl ⟨h1, h2, ?_⟩⟩
        exact (Option.some.inj h).symm
    · by_cases h3 : o.ret = pid
      · rw [if_neg h1, if_neg (not_not_intro h3)] at h
        refine ⟨[], o, outs, rfl, by simp, Or.inr ⟨h1, h3, ?_⟩⟩
        by_cases h4 : WIFEXITED o.status = true <;>
          by_cases h5 : WEXITSTATUS o.status = 0 <;>
          simp_all
      · rw [if_neg h1, if_pos h3] at h
        obtain ⟨pre, o', rest, e, hp, ho⟩ := ih h
        refine ⟨o :: pre, o', rest, by simp [e], ?_, ho⟩
        intro p hp'
        rcases List.mem_cons.mp hp' with rfl | hp'
        · exact Or.inr ⟨h1, h3⟩
        · exact hp p hp'

/-! ### Claims on the wait layer -/

/-- C1: when `waitpid` answers `(pid, s)` (a successful call, so the returned
pid is not `-1`), `wait_for_pid` returns `0` if and only if `s` encodes a
normal exit (`WIFEXITED`: `s & 0x7f = 0`, the remainder modulo 128) with exit
code `0` (`WEXITSTATUS`: `(s >> 8) & 0xff = 0`); for every other status it
returns `-1`, and so it does for a `waitpid` failure whose `errno` is not
`EINTR`. -/
theorem wait_for_pid_exit_status (pid s e : Int) (rest : List WaitOutcome)
    (hpid : pid ≠ -1) :
    (wait_for_pid pid ({ ret := pid, status := s, errno := e } :: rest) = some 0 ↔
        (s % 128 = 0 ∧ (s / 256) % 256 = 0)) ∧
    (¬ (s % 128 = 0 ∧ (s / 256) % 256 = 0) →
        wait_for_pid pid ({ ret := pid, status := s, errno := e } :: rest) = some (-1)) ∧
    (∀ e' : Int, e' ≠ EINTR →
        wait_for_pid pid ({ ret := -1, status := s, errno := e' } :: rest) = some (-1)) := by
  refine ⟨?_, ?_, ?_⟩
  · by_cases h1 : s % 128 = 0 <;> by_cases h2 : (s / 256) % 256 = 0 <;>
      simp [wait_for_pid, hpid, WIFEXITED, WTERMSIG, WEXITSTATUS, h1, h2]
  · intro h
    by_cases h1 : s % 128 = 0 <;> by_cases h2 : (s / 256) % 256 = 0 <;>
      simp_all [wait_for_pid, WIFEXITED, WTERMSIG, WEXITSTATUS]
  · intro e' he'
    simp [wait_for_pid, he']

/-- Witness of C1: pid 7, a normal exit with code 0 (status 0), a normal exit
with code 1 (status 256), a termination by signal 9 (status 9) and an `ECHILD`
failure. -/
theorem wait_for_pid_exit_status_witness :
    wait_for_pid 7 [{ ret := 7, status := 0, errno := 0 }] = some 0 ∧
    wait_for_pid 7 [{ ret := 7, status := 256, errno := 0 }] = some (-1) ∧
    wait_for_pid 7 [{ ret := 7, status := 9, errno := 0 }] = some (-1) ∧
    wait_for_pid 7 [{ ret := -1, status := 0, errno := 10 }] = some (-1) :=
  ⟨(wait_for_pid_exit_status 7 0 0 [] (by decide)).1.mpr (by decide),
   (wait_for_pid_exit_status 7 256 0 [] (by decide)).2.1 (by decide),
   (wait_for_pid_exit_status 7 9 0 [] (by decide)).2.1 (by decide),
   (wait_for_pid_exit_status 7 0 0 [] (by decide)).2.2 10 (by decide)⟩

/-- C2: `wait_for_pid` and `wait_for_pid_status_nointr` never return because
of an interrupted call: after any finite run of `waitpid` failures with
`errno == EINTR`, followed by an answer `r`, each function returns exactly
what it returns when `r` is the first answer; and while only such failures
have been seen, neither function has returned. -/
theorem wait_eintr_absorbed (pid : Int) (pre : List WaitOutcome) (r : WaitOutcome)
    (rest : List WaitOutcome) (h : ∀ o ∈ pre, o.isEintr) :
    wait_for_pid pid (pre ++ r :: rest) = wait_for_pid pid (r :: rest) ∧
    wait_for_pid_status_nointr pid (pre ++ r :: rest) =
      wait_for_pid_status_nointr pid (r :: rest) ∧
    wait_for_pid pid pre = none ∧
    wait_for_pid_status_nointr pid pre = none := by
  have h' : ∀ o ∈ pre, o.isEintr ∨ o.isMismatch pid := fun o ho => Or.inl (h o ho)
  refine ⟨wait_for_pid_retry pid pre _ h', wait_for_pid_status_nointr_retry pid pre _ h',
    ?_, ?_⟩
  · have := wait_for_pid_retry pid pre [] h'
    simpa [wait_for_pid] using this
  · have := wait_for_pid_status_nointr_retry pid pre [] h'
    simpa [wait_for_pid_status_nointr] using this

/-- Witness of C2: three interruptions, then the child 7 exits with status
`256` (exit code 1). -/
theorem wait_eintr_absorbed_witness :
    wait_for_pid 7 (List.replicate 3 { ret := -1, status := 0, errno := 4 } ++
        [{ ret := 7, status := 256, errno := 0 }]) = some (-1) ∧
    wait_for_pid_status_nointr 7 (List.replicate 3 { ret := -1, status := 0, errno := 4 } ++
        [{ ret := 7, status := 256, errno := 0 }]) = some 256 ∧
    wait_for_pid 7 (List.replicate 3 { ret := -1, status := 0, errno := 4 }) = none ∧
    wait_for_pid_status_nointr 7
        (List.replicate 3 { ret := -1, status := 0, errno := 4 }) = none := by
  have h := wait_eintr_absorbed 7 (List.replicate 3 { ret := -1, status := 0, errno := 4 })
    { ret := 7, status := 256, errno := 0 } [] (by decide)
  exact ⟨h.1.trans (by decide), h.2.1.trans (by decide), h.2.2.1, h.2.2.2⟩

/-- C3: `wait_for_pid` and `wait_for_pid_status_nointr` never return a result
taken from another process. An answer of `waitpid` that succeeds with a pid
other than the requested one is retried; and every returned value comes from
the first answer `o` that is neither an interruption nor such a mismatch:
either `o` is a failure of `waitpid` (the value is `-1`), or `o` reports the
requested pid and the value is computed from the status of `o`. -/
theorem wait_never_other_process (pid : Int) (outs : List WaitOutcome) :
    (∀ o rest, o.isMismatch pid →
        wait_for_pid pid (o :: rest) = wait_for_pid pid rest ∧
        wait_for_pid_status_nointr pid (o :: rest) =
          wait_for_pid_status_nointr pid rest) ∧
    (∀ v, wait_for_pid_status_nointr pid outs = some v →
      ∃ pre o rest, outs = pre ++ o :: rest ∧
        (∀ p ∈ pre, p.isEintr ∨ p.isMismatch pid) ∧
        ((o.ret = -1 ∧ o.errno ≠ EINTR ∧ v = -1) ∨
         (o.ret ≠ -1 ∧ o.ret = pid ∧ v = o.status))) ∧
    (∀ v, wait_for_pid pid outs = some v →
      ∃ pre o rest, outs = pre ++ o :: rest ∧
        (∀ p ∈ pre, p.isEintr ∨ p.isMismatch pid) ∧
        ((o.ret = -1 ∧ o.errno ≠ EINTR ∧ v = -1) ∨
         (o.ret ≠ -1 ∧ o.ret = pid ∧
           v = if WIFEXITED o.status = true ∧ WEXITSTATUS o.status = 0 then 0 else -1))) := by
  refine ⟨?_, fun v hv => wait_for_pid_status_nointr_source pid outs v hv,
    fun v hv => wait_for_pid_source pid outs v hv⟩
  intro o rest ho
  have h' : ∀ x ∈ [o], x.isEintr ∨ x.isMismatch pid := by
    intro x hx
    rw [List.mem_singleton] at hx
    exact Or.inr (hx ▸ ho)
  exact ⟨wait_for_pid_retry pid [o] rest h', wait_for_pid_status_nointr_retry pid [o] rest h'⟩

/-- Witness of C3: pid 7 is requested, `waitpid` first reports pid 8 with
status 0, then pid 7 with status 256. The status 0 of pid 8 is not used. -/
theorem wait_never_other_process_witness :
    wait_for_pid 7 [{ ret := 8, status := 0, errno := 0 },
        { ret := 7, status := 256, errno := 0 }] = some (-1) ∧
    wait_for_pid_status_nointr 7 [{ ret := 8, status := 0, errno := 0 },
        { ret := 7, status := 256, errno := 0 }] = some 256 ∧
    ∃ pre o rest,
      [({ ret := 8, status := 0, errno := 0 } : WaitOutcome),
        { ret := 7, status := 256, errno := 0 }] = pre ++ o :: rest ∧
      (∀ p ∈ pre, p.isEintr ∨ p.isMismatch 7) ∧
      ((o.ret = -1 ∧ o.errno ≠ EINTR ∧ (256 : Int) = -1) ∨
       (o.ret ≠ -1 ∧ o.ret = 7 ∧ (256 : Int) = o.status)) := by
  have h := wait_never_other_process 7 [{ ret := 8, status := 0, errno := 0 },
        { ret := 7, status := 256, errno := 0 }]
  have hm : WaitOutcome.isMismatch 7 { ret := 8, status := 0, errno := 0 } := by decide
  refine ⟨(h.1 _ _ hm).1.trans (by decide), (h.1 _ _ hm).2.trans (by decide), ?_⟩
  exact h.2.1 256 (by decide)


/-! ### Lemmas on the list builder -/

theorem scan_null_append (entries extra : List Ptr) (hne : ∀ e ∈ entries, e ≠ 0) :
    scan_null (entries ++ 0 :: extra) = entries.length := by
  induction entries with
  | nil => simp [scan_null]
  | cons e es ih =>
    have he : e ≠ 0 := hne e (List.mem_cons_self _ _)
    have ih := ih (fun x hx => hne x (List.mem_cons_of_mem _ hx))
    simp [scan_null, he, ih]

theorem realloc_slots_grow (entries extra : List Ptr) (a : ReallocAnswer) :
    (realloc_slots (entries ++ 0 :: extra) (entries.length + 2) a).set
      (entries.length + 1) 0 = entries ++ [0, 0] := by
  cases extra with
  | nil =>
    have ht : List.take (entries.length + 2) entries = entries :=
      List.take_of_length_le (by omega)
    simp [realloc_slots, List.take_append_eq_append_take, List.set_append, ht,
      List.range_succ]
  | cons x xs =>
    simp [realloc_slots, List.take_append_eq_append_take, List.set_append]

theorem append_null_to_list_alloc (l : PtrList) (entries extra : List Ptr)
    (a : ReallocAnswer) (haddr : l.addr ≠ 0) (hs : l.slots = entries ++ 0 :: extra)
    (hne : ∀ e ∈ entries, e ≠ 0) (hok : a.addr ≠ 0) :
    append_null_to_list l a =
      ((entries.length : Int), { addr := a.addr, slots := entries ++ [0, 0] }) := by
  unfold append_null_to_list
  simp only [haddr, hok, ne_eq, not_false_eq_true, if_true, if_false, PtrList.content, hs,
    scan_null_append entries extra hne, realloc_slots_grow]

theorem append_null_to_list_null (l : PtrList) (a : ReallocAnswer) (haddr : l.addr = 0)
    (hok : a.addr ≠ 0) :
    append_null_to_list l a = (0, { addr := a.addr, slots := [a.junk 0, 0] }) := by
  unfold append_null_to_list
  simp [haddr, hok, PtrList.content, realloc_slots, List.range_succ]

theorem append_null_to_list_fail (l : PtrList) (a : ReallocAnswer) (hfail : a.addr = 0) :
    append_null_to_list l a = (-ENOMEM, l) := by
  unfold append_null_to_list
  simp [hfail, ret_errno]


theorem free_head (h : StrHeap) (p : Ptr) (s : List Nat) (hp : p ≠ 0) :
    free ((p, s) :: h) p = h := by
  simp [free, hp, List.eraseP_cons]

theorem push_vargs_fail (h : StrHeap) (l : PtrList) (entry : List Nat) (a : PushAnswers)
    (hfail : a.dup = 0 ∨ a.re.addr = 0) :
    push_vargs h l entry a = { ret := -ENOMEM, heap := h, list := l } := by
  unfold push_vargs
  by_cases hd : a.dup = 0
  · simp [hd, ret_errno]
  · have hr : a.re.addr = 0 := hfail.resolve_left hd
    simp [hd, append_null_to_list_fail l a.re hr, free_head h a.dup _ hd, ENOMEM]

theorem push_vargs_ok (h : StrHeap) (l : PtrList) (entries : List Ptr) (entry : List Nat)
    (a : PushAnswers) (hl : IsList l entries) (hd : a.dup ≠ 0) (hr : a.re.addr ≠ 0) :
    push_vargs h l entry a =
      { ret := 0, heap := (a.dup, cstr entry) :: h,
        list := { addr := a.re.addr, slots := entries ++ [a.dup, 0] } } := by
  unfold push_vargs
  rcases hl with ⟨hne, ⟨h0, he⟩ | ⟨h1, hs⟩⟩
  · subst he
    simp [hd, append_null_to_list_null l a.re h0 hr]
  · have := append_null_to_list_alloc l entries [] a.re h1 hs hne hr
    simp [hd, this, List.set_append]

theorem push_all_ok (calls : List (List Nat × PushAnswers)) :
    ∀ (h : StrHeap) (l : PtrList) (entries : List Ptr), IsList l entries →
      (∀ c ∈ calls, c.2.dup ≠ 0 ∧ c.2.re.addr ≠ 0) →
      (push_all h l calls).1 = List.replicate calls.length 0 ∧
      (push_all h l calls).2.1 = (calls.map dup_block).reverse ++ h ∧
      IsList (push_all h l calls).2.2 (entries ++ calls.map (fun c => c.2.dup)) := by
  induction calls with
  | nil => intro h l entries hl _; simpa [push_all] using hl
  | cons c calls ih =>
    intro h l entries hl hok
    obtain ⟨hd, hr⟩ := hok c (List.mem_cons_self _ _)
    have hstep := push_vargs_ok h l entries c.1 c.2 hl hd hr
    have hl' : IsList { addr := c.2.re.addr, slots := entries ++ [c.2.dup, 0] }
        (entries ++ [c.2.dup]) := by
      refine ⟨?_, Or.inr ⟨hr, by simp⟩⟩
      intro e he
      rcases List.mem_append.mp he with he | he
      · exact hl.1 e he
      · rw [List.mem_singleton] at he; exact he ▸ hd
    obtain ⟨i1, i2, i3⟩ := ih ((c.2.dup, cstr c.1) :: h) _ _ hl'
      (fun x hx => hok x (List.mem_cons_of_mem _ hx))
    obtain ⟨entry, a⟩ := c
    simp only [push_all, hstep]
    refine ⟨?_, ?_, ?_⟩
    · simp [i1, List.replicate_succ]
    · simp [i2, dup_block]
    · simpa using i3

theorem lookup_of_mem_nodup (l : StrHeap) (k : Ptr) (v : List Nat)
    (hnd : (l.map Prod.fst).Nodup) (hm : (k, v) ∈ l) (rest : StrHeap) :
    (l ++ rest).lookup k = some v := by
  induction l with
  | nil => simp at hm
  | cons b t ih =>
    obtain ⟨k', v'⟩ := b
    rw [List.map_cons, List.nodup_cons] at hnd
    rcases List.mem_cons.mp hm with heq | hmem
    · cases heq
      simp [List.lookup]
    · have hk : k ≠ k' := by
        rintro rfl
        exact hnd.1 (List.mem_map.mpr ⟨(k, v), hmem, rfl⟩)
      have hb : (k == k') = false := by simpa using hk
      simp [List.lookup, hb, ih hnd.2 hmem]


theorem two_nulls_getElem? (entries : List Ptr) :
    (entries ++ [0, 0])[entries.length]? = some 0 ∧
    (entries ++ [0, 0])[entries.length + 1]? = some 0 := by
  constructor
  · rw [List.getElem?_append_right (Nat.le_refl _)]; simp
  · rw [List.getElem?_append_right (Nat.le_succ _)]; simp

/-! ### Claims on the list builder -/

/-- C4: starting from the empty (`NULL`) list, pushing the strings `s1 .. sn`
in that order with `push_vargs`, every push succeeding (and `strdup` handing
out pairwise distinct blocks), gives after the `k`-th push, for every
`1 ≤ k ≤ n`: every call so far returned `0`, the list is an array whose slots
`0 .. k-1` are the non-null pointers returned by `strdup` for `s1 .. sk`, in
that order, followed by the `NULL` sentinel at index `k`, and each of these
pointers refers to a copy equal to its string. The entries present after `k`
pushes are thus the first `k` entries after every later push. -/
theorem push_vargs_builds_list (h : StrHeap) (calls : List (List Nat × PushAnswers))
    (k : Nat)
    (hok : ∀ c ∈ calls, c.2.dup ≠ 0 ∧ c.2.re.addr ≠ 0)
    (hfresh : (calls.map (fun c => c.2.dup)).Nodup)
    (hk : 0 < k) (hkn : k ≤ calls.length) :
    (push_all h { addr := 0, slots := [] } (calls.take k)).1 = List.replicate k 0 ∧
    (push_all h { addr := 0, slots := [] } (calls.take k)).2.2.addr ≠ 0 ∧
    (push_all h { addr := 0, slots := [] } (calls.take k)).2.2.slots =
      (calls.take k).map (fun c => c.2.dup) ++ [0] ∧
    (∀ p ∈ (calls.take k).map (fun c => c.2.dup), p ≠ 0) ∧
    (∀ c ∈ calls.take k,
      (push_all h { addr := 0, slots := [] } (calls.take k)).2.1.lookup c.2.dup =
        some (cstr c.1)) := by
  have hnull : IsList { addr := 0, slots := [] } [] := by
    refine ⟨by simp, Or.inl ⟨rfl, rfl⟩⟩
  have hok' : ∀ c ∈ calls.take k, c.2.dup ≠ 0 ∧ c.2.re.addr ≠ 0 :=
    fun c hc => hok c (List.mem_of_mem_take hc)
  obtain ⟨h1, h2, h3⟩ := push_all_ok (calls.take k) h _ [] hnull hok'
  have hlen : (calls.take k).length = k := by
    rw [List.length_take]; omega
  have hne : (calls.take k).map (fun c => c.2.dup) ≠ [] := by
    intro hnil
    have := congrArg List.length hnil
    rw [List.length_map, hlen] at this
    simp at this
    omega
  rw [List.nil_append] at h3
  refine ⟨by rw [h1, hlen], ?_, ?_, h3.1, ?_⟩
  · rcases h3.2 with ⟨_, he⟩ | ⟨ha, _⟩
    · exact absurd he hne
    · exact ha
  · rcases h3.2 with ⟨_, he⟩ | ⟨_, hs⟩
    · exact absurd he hne
    · exact hs
  · intro c hc
    rw [h2]
    apply lookup_of_mem_nodup
    · rw [List.map_reverse, List.nodup_reverse, List.map_map]
      have hsub : ((calls.take k).map (fun c => c.2.dup)).Sublist
          (calls.map (fun c => c.2.dup)) := (List.take_sublist k calls).map _
      exact hfresh.sublist hsub
    · rw [List.mem_reverse]
      exact List.mem_map.mpr ⟨c, hc, rfl⟩

/-- Witness of C4: `"a"` then `"b"` pushed on the `NULL` list give
`["a", "b", NULL]`: the array holds the two pointers returned by `strdup`
(10 and 11), then `NULL`, and the pointers refer to `"a"` and `"b"`. -/
theorem push_vargs_builds_list_witness :
    (push_all [] { addr := 0, slots := [] }
      [([97, 0], { dup := 10, re := { addr := 100, junk := fun _ => 7 } }),
       ([98, 0], { dup := 11, re := { addr := 101, junk := fun _ => 7 } })]).1 = [0, 0] ∧
    (push_all [] { addr := 0, slots := [] }
      [([97, 0], { dup := 10, re := { addr := 100, junk := fun _ => 7 } }),
       ([98, 0], { dup := 11, re := { addr := 101, junk := fun _ => 7 } })]).2.2.slots
        = [10, 11, 0] ∧
    (push_all [] { addr := 0, slots := [] }
      [([97, 0], { dup := 10, re := { addr := 100, junk := fun _ => 7 } }),
       ([98, 0], { dup := 11, re := { addr := 101, junk := fun _ => 7 } })]).2.1.lookup 10
        = some [97] ∧
    (push_all [] { addr := 0, slots := [] }
      [([97, 0], { dup := 10, re := { addr := 100, junk := fun _ => 7 } }),
       ([98, 0], { dup := 11, re := { addr := 101, junk := fun _ => 7 } })]).2.1.lookup 11
        = some [98] := by
  have h := push_vargs_builds_list []
    [([97, 0], { dup := 10, re := { addr := 100, junk := fun _ => 7 } }),
     ([98, 0], { dup := 11, re := { addr := 101, junk := fun _ => 7 } })] 2
    (by decide) (by decide) (by decide) (by decide)
  refine ⟨h.1, h.2.2.1, ?_, ?_⟩
  · exact h.2.2.2.2 ([97, 0], { dup := 10, re := { addr := 100, junk := fun _ => 7 } })
      (by simp)
  · exact h.2.2.2.2 ([98, 0], { dup := 11, re := { addr := 101, junk := fun _ => 7 } })
      (by simp)

/-- C5: when `push_vargs` fails, whether `strdup` fails or the reallocation
made by `append_null_to_list` fails, it returns the negative code `-ENOMEM`,
the list variable and its array are exactly what they were before the call
(no pointer is installed), and the live string blocks are what they were (the
copy made by `strdup` has been freed). -/
theorem push_vargs_failure_leaves_list (h : StrHeap) (l : PtrList) (entry : List Nat)
    (a : PushAnswers) (hfail : a.dup = 0 ∨ a.re.addr = 0) :
    (push_vargs h l entry a).ret = -ENOMEM ∧
    (push_vargs h l entry a).ret < 0 ∧
    (push_vargs h l entry a).list = l ∧
    (push_vargs h l entry a).heap = h := by
  rw [push_vargs_fail h l entry a hfail]
  exact ⟨rfl, by simp [ENOMEM], rfl, rfl⟩

/-- Witness of C5: the list `["a", NULL]` (pointer 10 refers to `"a"`); a
second push of `"b"` fails, once in `strdup` and once in `realloc`, and leaves
the list `["a", NULL]`. -/
theorem push_vargs_failure_leaves_list_witness :
    (push_vargs [] { addr := 0, slots := [] } [97, 0]
        { dup := 10, re := { addr := 100, junk := fun _ => 7 } }) =
      { ret := 0, heap := [(10, [97])], list := { addr := 100, slots := [10, 0] } } ∧
    (push_vargs [(10, [97])] { addr := 100, slots := [10, 0] } [98, 0]
        { dup := 0, re := { addr := 101, junk := fun _ => 7 } }) =
      { ret := -12, heap := [(10, [97])], list := { addr := 100, slots := [10, 0] } } ∧
    (push_vargs [(10, [97])] { addr := 100, slots := [10, 0] } [98, 0]
        { dup := 11, re := { addr := 0, junk := fun _ => 7 } }) =
      { ret := -12, heap := [(10, [97])], list := { addr := 100, slots := [10, 0] } } := by
  have h1 := push_vargs_failure_leaves_list [(10, [97])] { addr := 100, slots := [10, 0] }
    [98, 0] { dup := 0, re := { addr := 101, junk := fun _ => 7 } } (Or.inl rfl)
  have h2 := push_vargs_failure_leaves_list [(10, [97])] { addr := 100, slots := [10, 0] }
    [98, 0] { dup := 11, re := { addr := 0, junk := fun _ => 7 } } (Or.inr rfl)
  refine ⟨by decide, ?_, ?_⟩
  · exact PushResult.ext h1.1 h1.2.2.2 h1.2.2.1
  · exact PushResult.ext h2.1 h2.2.2.2 h2.2.2.1


/-- C6: for every null-terminated list with `N` non-null entries (`N ≥ 0`; the
`NULL` list, with no entry, included), a successful `append_null_to_list`
returns `N`, leaves the entries `0 .. N-1` unchanged, and yields an array of
`N + 2` slots: the `N + 1` slots of a list of length `N + 1`, followed by the
`NULL` sentinel at index `N + 1`. -/
theorem append_null_to_list_returns_length (l : PtrList) (entries extra : List Ptr)
    (a : ReallocAnswer)
    (hl : (l.addr = 0 ∧ entries = []) ∨ (l.addr ≠ 0 ∧ l.slots = entries ++ 0 :: extra))
    (hne : ∀ e ∈ entries, e ≠ 0) (hok : a.addr ≠ 0) :
    (append_null_to_list l a).1 = (entries.length : Int) ∧
    (append_null_to_list l a).2.addr = a.addr ∧
    (append_null_to_list l a).2.slots.take entries.length = entries ∧
    (append_null_to_list l a).2.slots.length = entries.length + 2 ∧
    (append_null_to_list l a).2.slots[entries.length + 1]? = some 0 := by
  rcases hl with ⟨h0, he⟩ | ⟨h1, hs⟩
  · subst he
    rw [append_null_to_list_null l a h0 hok]
    simp
  · rw [append_null_to_list_alloc l entries extra a h1 hs hne hok]
    exact ⟨rfl, rfl, by simp, by simp, (two_nulls_getElem? entries).2⟩

/-- Witness of C6: the list `[5, 6, NULL]` at address 64, reallocated at
address 128. -/
theorem append_null_to_list_returns_length_witness :
    (append_null_to_list { addr := 64, slots := [5, 6, 0] }
        { addr := 128, junk := fun _ => 7 }).1 = 2 ∧
    (append_null_to_list { addr := 64, slots := [5, 6, 0] }
        { addr := 128, junk := fun _ => 7 }).2 = { addr := 128, slots := [5, 6, 0, 0] } := by
  have h := append_null_to_list_returns_length { addr := 64, slots := [5, 6, 0] } [5, 6] []
    { addr := 128, junk := fun _ => 7 } (Or.inr ⟨by decide, rfl⟩) (by decide) (by decide)
  exact ⟨h.1, by decide⟩

/-- Counterexample to C7: on the `NULL` list, with an allocator that hands out
a block whose bytes are not zero, `append_null_to_list` returns index `0`, and
slot `0` of the new array is not `NULL` (only slot `1` is written); the array
went from no slot to two slots. -/
theorem append_null_to_list_null_list_slot :
    (append_null_to_list { addr := 0, slots := [] }
        { addr := 4096, junk := fun _ => 57005 }).1 = 0 ∧
    (append_null_to_list { addr := 0, slots := [] }
        { addr := 4096, junk := fun _ => 57005 }).2.slots = [57005, 0] ∧
    (append_null_to_list { addr := 0, slots := [] }
        { addr := 4096, junk := fun _ => 57005 }).2.slots[0]? ≠ some 0 ∧
    (append_null_to_list { addr := 0, slots := [] }
        { addr := 4096, junk := fun _ => 57005 }).2.slots.length ≠
      (PtrList.content { addr := 0, slots := [] }).length + 1 := by
  decide

/-- C7, amended: for every allocated null-terminated input list (the entries,
then the `NULL` sentinel, in an array of exactly these slots), the slot whose
index a successful `append_null_to_list` returns is `NULL` when the function
returns, and the backing array has grown by exactly one slot. For the
empty/uninitialized (`NULL`) list a successful call returns index `0` and
yields a two-slot array whose slot `1` is the `NULL` sentinel and whose slot
`0` holds what the allocator left there. -/
theorem append_null_to_list_returned_slot (l : PtrList) (entries : List Ptr)
    (a : ReallocAnswer) (hl : IsList l entries) (hok : a.addr ≠ 0) :
    (l.addr ≠ 0 →
      (append_null_to_list l a).2.slots[(append_null_to_list l a).1.toNat]? = some 0 ∧
      (append_null_to_list l a).2.slots.length = l.slots.length + 1) ∧
    (l.addr = 0 →
      (append_null_to_list l a).1 = 0 ∧
      (append_null_to_list l a).2.slots = [a.junk 0, 0]) := by
  constructor
  · intro h1
    rcases hl with ⟨hne, ⟨h0, _⟩ | ⟨_, hs⟩⟩
    · exact absurd h0 h1
    · rw [append_null_to_list_alloc l entries [] a h1 hs hne hok, hs]
      exact ⟨(two_nulls_getElem? entries).1, by simp⟩
  · intro h0
    rw [append_null_to_list_null l a h0 hok]
    exact ⟨rfl, rfl⟩

/-- Witness of C7, amended: the list `[5, 6, NULL]`, and the `NULL` list. -/
theorem append_null_to_list_returned_slot_witness :
    (append_null_to_list { addr := 64, slots := [5, 6, 0] }
        { addr := 128, junk := fun _ => 7 }).2.slots[2]? = some 0 ∧
    (append_null_to_list { addr := 64, slots := [5, 6, 0] }
        { addr := 128, junk := fun _ => 7 }).2.slots.length = 3 + 1 ∧
    (append_null_to_list { addr := 0, slots := [] }
        { addr := 128, junk := fun _ => 7 }).2.slots = [7, 0] :=
  ⟨((append_null_to_list_returned_slot { addr := 64, slots := [5, 6, 0] } [5, 6]
      { addr := 128, junk := fun _ => 7 } (by decide) (by decide)).1 (by decide)).1,
   ((append_null_to_list_returned_slot { addr := 64, slots := [5, 6, 0] } [5, 6]
      { addr := 128, junk := fun _ => 7 } (by decide) (by decide)).1 (by decide)).2,
   ((append_null_to_list_returned_slot { addr := 0, slots := [] } []
      { addr := 128, junk := fun _ => 7 } (by decide) (by decide)).2 rfl).2⟩

/-- C8: when the reallocation inside `append_null_to_list` fails, the function
returns the negative out-of-memory code `-ENOMEM`, and the caller's list
pointer and every slot of the original array are unchanged. -/
theorem append_null_to_list_failure (l : PtrList) (a : ReallocAnswer)
    (hfail : a.addr = 0) :
    (append_null_to_list l a).1 = -ENOMEM ∧
    (append_null_to_list l a).1 < 0 ∧
    (append_null_to_list l a).2.addr = l.addr ∧
    (append_null_to_list l a).2.slots = l.slots := by
  rw [append_null_to_list_fail l a hfail]
  exact ⟨rfl, by simp [ENOMEM], rfl, rfl⟩

/-- Witness of C8: the list `[5, 6, NULL]` and a failing `realloc`. -/
theorem append_null_to_list_failure_witness :
    (append_null_to_list { addr := 64, slots := [5, 6, 0] }
        { addr := 0, junk := fun _ => 7 }).1 = -12 ∧
    (append_null_to_list { addr := 64, slots := [5, 6, 0] }
        { addr := 0, junk := fun _ => 7 }).2 = { addr := 64, slots := [5, 6, 0] } := by
  have h := append_null_to_list_failure { addr := 64, slots := [5, 6, 0] }
    { addr := 0, junk := fun _ => 7 } rfl
  exact ⟨h.1, by decide⟩


/-! ### Lemmas on `strlcpy` -/

theorem strlen_le_length (s : List Nat) : strlen s ≤ s.length := by
  induction s with
  | nil => simp [strlen]
  | cons c cs ih =>
    by_cases hc : c = 0
    · simp [strlen, hc]
    · simp [strlen, hc, ih]

theorem strlen_eq_cstr_length (s : List Nat) : strlen s = (cstr s).length := by
  induction s with
  | nil => simp [strlen, cstr]
  | cons c cs ih =>
    by_cases hc : c = 0
    · simp [strlen, cstr, hc]
    · simp [strlen, cstr, hc, ih]

theorem take_strlen (s : List Nat) : s.take (strlen s) = cstr s := by
  induction s with
  | nil => simp [strlen, cstr]
  | cons c cs ih =>
    by_cases hc : c = 0
    · simp [strlen, cstr, hc]
    · simp [strlen, cstr, hc, ih]

theorem cstr_no_nul (s : List Nat) : ∀ c ∈ cstr s, c ≠ 0 := by
  induction s with
  | nil => simp [cstr]
  | cons c cs ih =>
    by_cases hc : c = 0
    · simp [cstr, hc]
    · intro x hx
      simp only [cstr, hc, ne_eq, not_false_eq_true, if_true, List.mem_cons] at hx
      rcases hx with rfl | hx
      · exact hc
      · exact ih x hx

theorem cstr_append_nul (w rest : List Nat) (hw : ∀ c ∈ w, c ≠ 0) :
    cstr (w ++ 0 :: rest) = w := by
  induction w with
  | nil => simp [cstr]
  | cons c cs ih =>
    have hc : c ≠ 0 := hw c (List.mem_cons_self _ _)
    simp [cstr, hc, ih (fun x hx => hw x (List.mem_cons_of_mem _ hx))]

theorem memcpy_length (dest src : List Nat) (n : Nat) :
    (memcpy dest src n).length = dest.length := by
  induction n with
  | zero => rfl
  | succ n ih => simp [memcpy, ih]

theorem memcpy_eq (dest src : List Nat) (n : Nat) (hd : n ≤ dest.length)
    (hs : n ≤ src.length) : memcpy dest src n = src.take n ++ dest.drop n := by
  induction n with
  | zero => simp [memcpy]
  | succ n ih =>
    have hn : n < src.length := hs
    have hn' : n < dest.length := hd
    have hlen : (src.take n).length = n := by rw [List.length_take]; omega
    rw [memcpy, ih (Nat.le_of_lt hd) (Nat.le_of_lt hs)]
    rw [List.set_append, hlen, if_neg (Nat.lt_irrefl n), Nat.sub_self,
      List.drop_eq_getElem_cons hn', List.set_cons_zero,
      List.getD_eq_getElem?_getD, List.getElem?_eq_getElem hn]
    rw [List.take_succ, List.getElem?_eq_getElem hn]
    simp only [Option.toList, List.append_assoc, List.singleton_append, Option.getD_some]

theorem strlcpy_buffer (dest src : List Nat) (size : Nat) (hpos : 0 < size)
    (hsz : size ≤ dest.length) :
    (strlcpy dest src size).2 =
      src.take (min (strlen src) (size - 1)) ++
        0 :: dest.drop (min (strlen src) (size - 1) + 1) := by
  have hlen : (if strlen src ≥ size then size - 1 else strlen src) =
      min (strlen src) (size - 1) := by
    split <;> omega
  have h1 : min (strlen src) (size - 1) ≤ src.length :=
    Nat.le_trans (Nat.min_le_left _ _) (strlen_le_length src)
  have h2 : min (strlen src) (size - 1) < dest.length := by omega
  have h3 : (src.take (min (strlen src) (size - 1))).length = min (strlen src) (size - 1) := by
    rw [List.length_take]; omega
  unfold strlcpy
  simp only [ne_eq, Nat.pos_iff_ne_zero.mp hpos, not_false_eq_true, if_true, hlen]
  rw [memcpy_eq dest src _ (Nat.le_of_lt h2) h1, List.set_append, h3,
    if_neg (Nat.lt_irrefl _), Nat.sub_self, List.drop_eq_getElem_cons h2, List.set_cons_zero]


theorem take_min_cstr (src : List Nat) (n : Nat) :
    src.take (min (strlen src) n) = (cstr src).take n := by
  rw [← take_strlen src, List.take_take, Nat.min_comm]

theorem strlcpy_unchanged_from (dest src : List Nat) (size i : Nat)
    (hsz : size ≤ dest.length) (hi : size ≤ i) :
    (strlcpy dest src size).2[i]? = dest[i]? := by
  rcases Nat.eq_zero_or_pos size with h0 | hpos
  · subst h0; simp [strlcpy]
  · have hm : min (strlen src) (size - 1) ≤ src.length :=
      Nat.le_trans (Nat.min_le_left _ _) (strlen_le_length src)
    have hl : (src.take (min (strlen src) (size - 1))).length =
        min (strlen src) (size - 1) := by
      rw [List.length_take]; omega
    have hle : min (strlen src) (size - 1) + 1 ≤ i := by omega
    rw [strlcpy_buffer dest src size hpos hsz,
      List.getElem?_append_right (by rw [hl]; omega), hl]
    obtain ⟨j, hj⟩ : ∃ j, i - min (strlen src) (size - 1) = j + 1 := ⟨i - min (strlen src) (size - 1) - 1, by omega⟩
    rw [hj, List.getElem?_cons_succ, List.getElem?_drop]
    congr 1
    omega

/-! ### Claims on `strlcpy` -/

/-- C9: for every source string `src` and every `size > 0` (the destination
buffer having at least `size` bytes), `strlcpy` writes exactly
`min(strlen(src), size - 1)` bytes of `src` followed by one NUL into `dest`:
no byte at or beyond index `size` changes, the string left in `dest` ends
within `size` and is the prefix of `src` of that length, which is the
truncated prefix of `size - 1` bytes when `size ≤ strlen(src)`; when
`size = 0`, `dest` is not written at all. -/
theorem strlcpy_truncates (dest src : List Nat) (size : Nat) (hsz : size ≤ dest.length) :
    (0 < size →
      (strlcpy dest src size).2 =
        src.take (min (strlen src) (size - 1)) ++
          0 :: dest.drop (min (strlen src) (size - 1) + 1) ∧
      cstr (strlcpy dest src size).2 = (cstr src).take (size - 1) ∧
      strlen (strlcpy dest src size).2 < size) ∧
    (0 < size → size ≤ strlen src →
      (strlcpy dest src size).2 = src.take (size - 1) ++ 0 :: dest.drop size ∧
      cstr (strlcpy dest src size).2 = src.take (size - 1)) ∧
    (∀ i, size ≤ i → (strlcpy dest src size).2[i]? = dest[i]?) ∧
    (strlcpy dest src size).2.length = dest.length ∧
    (size = 0 → (strlcpy dest src size).2 = dest) := by
  have hcs : 0 < size → cstr (strlcpy dest src size).2 = (cstr src).take (size - 1) := by
    intro hpos
    rw [strlcpy_buffer dest src size hpos hsz, take_min_cstr]
    exact cstr_append_nul _ _ (fun c hc => cstr_no_nul src c (List.mem_of_mem_take hc))
  refine ⟨fun hpos => ⟨strlcpy_buffer dest src size hpos hsz, hcs hpos, ?_⟩, ?_,
    fun i hi => strlcpy_unchanged_from dest src size i hsz hi, ?_, ?_⟩
  · rw [strlen_eq_cstr_length, hcs hpos, List.length_take]
    omega
  · intro hpos hle
    have hmin : min (strlen src) (size - 1) = size - 1 := by omega
    have hsucc : size - 1 + 1 = size := by omega
    constructor
    · rw [strlcpy_buffer dest src size hpos hsz, hmin, hsucc]
    · rw [hcs hpos, ← take_min_cstr, hmin]
  · unfold strlcpy
    split
    · simp [memcpy_length]
    · rfl
  · intro h0
    simp [strlcpy, h0]

/-- Witness of C9: `"hello"` copied into a six-byte buffer with `size = 4`
leaves `"hel"`, NUL, and the last two bytes as they were; with `size = 0`
nothing is written. -/
theorem strlcpy_truncates_witness :
    (strlcpy [9, 9, 9, 9, 9, 9] [104, 101, 108, 108, 111, 0] 4).2 =
      [104, 101, 108, 0, 9, 9] ∧
    cstr (strlcpy [9, 9, 9, 9, 9, 9] [104, 101, 108, 108, 111, 0] 4).2 = [104, 101, 108] ∧
    (strlcpy [9, 9, 9, 9, 9, 9] [104, 101, 108, 108, 111, 0] 0).2 = [9, 9, 9, 9, 9, 9] := by
  have h4 := strlcpy_truncates [9, 9, 9, 9, 9, 9] [104, 101, 108, 108, 111, 0] 4 (by decide)
  have h0 := strlcpy_truncates [9, 9, 9, 9, 9, 9] [104, 101, 108, 108, 111, 0] 0 (by decide)
  exact ⟨(h4.2.1 (by decide) (by decide)).1, (h4.2.1 (by decide) (by decide)).2,
    h0.2.2.2.2 rfl⟩


/-! ### Lemmas on the discovery phase -/

theorem strrchr_none (s : List Nat) (c : Nat) (h : c ∉ s) : strrchr s c = none := by
  induction s with
  | nil => rfl
  | cons x xs ih =>
    have hx : x ≠ c := fun e => h (e ▸ List.mem_cons_self _ _)
    simp [strrchr, ih (fun hm => h (List.mem_cons_of_mem _ hm)), hx]

theorem strrchr_last (pre rest : List Nat) (c : Nat) (h : c ∉ rest) :
    strrchr (pre ++ c :: rest) c = some (c :: rest) := by
  induction pre with
  | nil => simp [strrchr, strrchr_none rest c h]
  | cons x xs ih => simp [strrchr, ih]

theorem strchr_first (w rest : List Nat) (c : Nat) (h : c ∉ w) :
    strchr (w ++ c :: rest) c = some (c :: rest) := by
  induction w with
  | nil => simp [strchr]
  | cons x xs ih =>
    have hx : x ≠ c := fun e => h (e ▸ List.mem_cons_self _ _)
    simp [strchr, hx, ih (fun hm => h (List.mem_cons_of_mem _ hm))]

theorem skip_fields_join (n : Nat) :
    ∀ (x : Nat) (w : List Nat) (fs : List (List Nat)) (tail : List Nat),
      32 ∉ w → (∀ f ∈ fs, 32 ∉ f) → n < fs.length →
      skip_fields (n + 1) (x :: (w ++ join_fields fs tail)) =
        some (join_fields (fs.drop n) tail) := by
  induction n with
  | zero =>
    intro x w fs tail hw _ hlen
    cases fs with
    | nil => simp at hlen
    | cons f fs =>
      simp [skip_fields, join_fields, strchr_first w _ 32 hw]
  | succ n ih =>
    intro x w fs tail hw hfs hlen
    cases fs with
    | nil => simp at hlen
    | cons f fs =>
      have hf : 32 ∉ f := hfs f (List.mem_cons_self _ _)
      have hfs' : ∀ g ∈ fs, 32 ∉ g := fun g hg => hfs g (List.mem_cons_of_mem _ hg)
      have hlen' : n < fs.length := by simpa using hlen
      have := ih 32 f fs tail hf hfs' hlen'
      rw [skip_fields]
      simp only [List.drop_succ_cons, List.drop_zero, join_fields,
        strchr_first w _ 32 hw]
      exact this

theorem not_mem_join_fields (c : Nat) (hc : c ≠ 32) (fs : List (List Nat)) (tail : List Nat)
    (hfs : ∀ f ∈ fs, c ∉ f) (ht : c ∉ tail) : c ∉ join_fields fs tail := by
  induction fs with
  | nil => simpa [join_fields] using ht
  | cons f fs ih =>
    have hf : c ∉ f := hfs f (List.mem_cons_self _ _)
    have := ih (fun g hg => hfs g (List.mem_cons_of_mem _ hg))
    simp [join_fields, hc, hf, this]


theorem isdigit_facts (c : Nat) (h : isdigit c = true) :
    isspace c = false ∧ c ≠ 43 ∧ c ≠ 45 := by
  simp only [isdigit, Bool.and_eq_true, decide_eq_true_eq] at h
  refine ⟨?_, by omega, by omega⟩
  simp only [isspace, Bool.or_eq_false_iff, Bool.and_eq_false_iff, beq_eq_false_iff_ne,
    decide_eq_false_iff_not]
  omega

theorem takeWhile_digits (f rest : List Nat) (hf : ∀ c ∈ f, isdigit c = true) :
    (f ++ 32 :: rest).takeWhile isdigit = f ∧
    (f ++ 32 :: rest).dropWhile isdigit = 32 :: rest := by
  induction f with
  | nil => simp [List.takeWhile, List.dropWhile, isdigit]
  | cons d ds ih =>
    have hd := hf d (List.mem_cons_self _ _)
    have := ih (fun c hc => hf c (List.mem_cons_of_mem _ hc))
    simp [List.takeWhile, List.dropWhile, hd, this]

theorem scan_u_number (f rest : List Nat) (hf : IsNumber f) :
    scan_u (f ++ 32 :: rest) = some (strtoul_value false f, 32 :: rest) := by
  obtain ⟨hne, hdig⟩ := hf
  cases f with
  | nil => exact absurd rfl hne
  | cons d ds =>
    have hd := hdig d (List.mem_cons_self _ _)
    obtain ⟨hsp, h43, h45⟩ := isdigit_facts d hd
    have htd := takeWhile_digits (d :: ds) rest hdig
    have hdw : (d :: ds ++ 32 :: rest).dropWhile isspace = d :: ds ++ 32 :: rest := by
      simp [List.dropWhile, hsp]
    unfold scan_u
    rw [hdw]
    have hsign : (match d :: ds ++ 32 :: rest with
        | 43 :: t => (false, t)
        | 45 :: t => (true, t)
        | _ => (false, d :: ds ++ 32 :: rest)) = (false, d :: ds ++ 32 :: rest) := by
      split
      · rename_i heq; simp at heq; exact absurd heq.1 h43
      · rename_i heq; simp at heq; exact absurd heq.1 h45
      · rfl
    simp only [hsign, htd.1, htd.2]
    simp

theorem scan_u_space (s : List Nat) : scan_u (32 :: s) = scan_u s := by
  simp [scan_u, List.dropWhile, isspace]

theorem dropWhile_space_number (f rest : List Nat) (hf : IsNumber f) :
    (32 :: (f ++ rest)).dropWhile isspace = f ++ rest := by
  obtain ⟨hne, hdig⟩ := hf
  cases f with
  | nil => exact absurd rfl hne
  | cons d ds =>
    have hsp := (isdigit_facts d (hdig d (List.mem_cons_self _ _))).1
    have h32 : isspace 32 = true := by decide
    simp only [List.dropWhile, h32, hsp, List.cons_append]
    rfl

theorem sscanf_u (a : Bool) (ds : List Directive) (f rest : List Nat) (hf : IsNumber f) :
    sscanf (Directive.u a :: ds) (32 :: (f ++ 32 :: rest)) =
      if a then strtoul_value false f :: sscanf ds (32 :: rest)
      else sscanf ds (32 :: rest) := by
  simp [sscanf, scan_u_space, scan_u_number f rest hf]

theorem sscanf_ws_u (a : Bool) (ds : List Directive) (f rest : List Nat) (hf : IsNumber f) :
    sscanf (Directive.ws :: Directive.u a :: ds) (32 :: (f ++ 32 :: rest)) =
      if a then strtoul_value false f :: sscanf ds (32 :: rest)
      else sscanf ds (32 :: rest) := by
  rw [sscanf, dropWhile_space_number f _ hf]
  simp [sscanf, scan_u_number f rest hf]

theorem drop_eq_field (fields : List (List Nat)) (i : Nat) (h : i < fields.length) :
    fields.drop i = field fields (i + 3) :: fields.drop (i + 1) := by
  rw [List.drop_eq_getElem_cons h]
  simp [field, List.getD_eq_getElem?_getD, List.getElem?_eq_getElem h]


theorem sscanf_code_stack (f26 f27 f28 rest : List Nat) (h26 : IsNumber f26)
    (h27 : IsNumber f27) (h28 : IsNumber f28) :
    sscanf fmt_code_stack (32 :: (f26 ++ 32 :: (f27 ++ 32 :: (f28 ++ 32 :: rest)))) =
      [strtoul_value false f26, strtoul_value false f27, strtoul_value false f28] := by
  rw [fmt_code_stack, sscanf_u _ _ _ _ h26, sscanf_ws_u _ _ _ _ h27, sscanf_ws_u _ _ _ _ h28]
  simp [sscanf]

theorem sscanf_data_env (f45 f46 f47 f48 f49 f50 f51 rest : List Nat)
    (h45 : IsNumber f45) (h46 : IsNumber f46) (h47 : IsNumber f47) (h48 : IsNumber f48)
    (h49 : IsNumber f49) (h50 : IsNumber f50) (h51 : IsNumber f51) :
    sscanf fmt_data_env
      (32 :: (f45 ++ 32 :: (f46 ++ 32 :: (f47 ++ 32 :: (f48 ++ 32 :: (f49 ++
        32 :: (f50 ++ 32 :: (f51 ++ 32 :: rest)))))))) =
      [strtoul_value false f45, strtoul_value false f46, strtoul_value false f47,
       strtoul_value false f50, strtoul_value false f51] := by
  rw [fmt_data_env, sscanf_u _ _ _ _ h45, sscanf_ws_u _ _ _ _ h46, sscanf_ws_u _ _ _ _ h47,
    sscanf_ws_u _ _ _ _ h48, sscanf_ws_u _ _ _ _ h49, sscanf_ws_u _ _ _ _ h50,
    sscanf_ws_u _ _ _ _ h51]
  simp [sscanf]

/-! ### Claims on the discovery phase -/

/-- C10: for every status line of the form `pid (comm) f3 f4 ... f52` with
single-space-separated fields, whatever `comm` contains (spaces, `(` or `)`),
the discovery phase of `setproctitle` counts fields from the last `)` of the
line and reads `start_code`, `end_code`, `start_stack` from fields 26, 27, 28
and `start_data`, `end_data`, `start_brk`, `env_start`, `env_end` from fields
45, 46, 47, 50, 51, fields 48 and 49 being skipped. The fields contain no
space and no `)`; the fields 26-28 and 45-51 are decimal numbers. -/
theorem setproctitle_discover_fields (buf pid comm : List Nat) (fields : List (List Nat))
    (tail : List Nat)
    (hbuf : cstr buf = status_line pid comm fields tail)
    (hlen : fields.length = 50)
    (hsep : ∀ f ∈ fields, 32 ∉ f ∧ 41 ∉ f)
    (htail : 41 ∉ tail)
    (hnum : ∀ k ∈ [26, 27, 28, 45, 46, 47, 48, 49, 50, 51], IsNumber (field fields k)) :
    setproctitle_discover buf =
      some { start_code := strtoul_value false (field fields 26),
             end_code := strtoul_value false (field fields 27),
             start_stack := strtoul_value false (field fields 28),
             start_data := strtoul_value false (field fields 45),
             end_data := strtoul_value false (field fields 46),
             start_brk := strtoul_value false (field fields 47),
             env_start := strtoul_value false (field fields 50),
             env_end := strtoul_value false (field fields 51) } := by
  have hsp : ∀ f ∈ fields, 32 ∉ f := fun f hf => (hsep f hf).1
  have hpar : 41 ∉ join_fields fields tail :=
    not_mem_join_fields 41 (by decide) fields tail (fun f hf => (hsep f hf).2) htail
  have hline : status_line pid comm fields tail =
      (pid ++ 32 :: 40 :: comm) ++ 41 :: join_fields fields tail := by
    simp [status_line]
  have h0 : strrchr (cstr buf) 41 = some (41 :: join_fields fields tail) := by
    rw [hbuf, hline]
    exact strrchr_last _ _ 41 hpar
  have h1 : skip_fields 24 (41 :: join_fields fields tail) =
      some (join_fields (fields.drop 23) tail) := by
    have := skip_fields_join 23 41 [] fields tail (by simp) hsp (by omega)
    rwa [List.nil_append] at this
  have e23 : fields.drop 23 = field fields 26 :: field fields 27 :: field fields 28 ::
      field fields 29 :: fields.drop 27 := by
    rw [drop_eq_field fields 23 (by omega), drop_eq_field fields 24 (by omega),
      drop_eq_field fields 25 (by omega), drop_eq_field fields 26 (by omega)]
  have e42 : fields.drop 42 = field fields 45 :: field fields 46 :: field fields 47 ::
      field fields 48 :: field fields 49 :: field fields 50 :: field fields 51 ::
      field fields 52 :: fields.drop 50 := by
    rw [drop_eq_field fields 42 (by omega), drop_eq_field fields 43 (by omega),
      drop_eq_field fields 44 (by omega), drop_eq_field fields 45 (by omega),
      drop_eq_field fields 46 (by omega), drop_eq_field fields 47 (by omega),
      drop_eq_field fields 48 (by omega), drop_eq_field fields 49 (by omega)]
  have h2 : skip_fields 19 (join_fields (fields.drop 23) tail) =
      some (join_fields (fields.drop 42) tail) := by
    have := skip_fields_join 18 32 (field fields 26) (fields.drop 24) tail
      ((hsep _ (by
        have hm : field fields 26 ∈ fields.drop 23 := by rw [e23]; exact List.mem_cons_self _ _
        exact List.mem_of_mem_drop hm)).1)
      (fun f hf => hsp f (List.mem_of_mem_drop hf))
      (by rw [List.length_drop]; omega)
    rw [List.drop_drop] at this
    rw [drop_eq_field fields 23 (by omega), join_fields]
    exact this
  have s1 : sscanf fmt_code_stack (join_fields (fields.drop 23) tail) =
      [strtoul_value false (field fields 26), strtoul_value false (field fields 27),
       strtoul_value false (field fields 28)] := by
    rw [e23]
    simp only [join_fields]
    exact sscanf_code_stack _ _ _ _ (hnum 26 (by simp)) (hnum 27 (by simp))
      (hnum 28 (by simp))
  have s2 : sscanf fmt_data_env (join_fields (fields.drop 42) tail) =
      [strtoul_value false (field fields 45), strtoul_value false (field fields 46),
       strtoul_value false (field fields 47), strtoul_value false (field fields 50),
       strtoul_value false (field fields 51)] := by
    rw [e42]
    simp only [join_fields]
    exact sscanf_data_env _ _ _ _ _ _ _ _ (hnum 45 (by simp)) (hnum 46 (by simp))
      (hnum 47 (by simp)) (hnum 48 (by simp)) (hnum 49 (by simp)) (hnum 50 (by simp))
      (hnum 51 (by simp))
  unfold setproctitle_discover
  simp only [h0, h1, s1, h2, s2]


set_option maxRecDepth 100000

/-- Witness of C10: the line `4242 (a) (b c) S 1 4242 4242 -1 08 09 10 ... 52`
followed by a newline; the name holds a space and both parentheses. -/
theorem setproctitle_discover_fields_witness :
    setproctitle_discover
        (status_line [52, 50, 52, 50] [97, 41, 32, 40, 98, 32, 99] sample_fields [10]) =
      some { start_code := 26, end_code := 27, start_stack := 28, start_data := 45,
             end_data := 46, start_brk := 47, env_start := 50, env_end := 51 } :=
  (setproctitle_discover_fields
    (status_line [52, 50, 52, 50] [97, 41, 32, 40, 98, 32, 99] sample_fields [10])
    [52, 50, 52, 50] [97, 41, 32, 40, 98, 32, 99] sample_fields [10]
    (by decide) (by decide) (by decide) (by decide) (by decide)).trans (by decide)


/-! ### Claims on the raw status and the handle layer -/

theorem collapse_status_neg_one : collapse_status (-1) = -1 := by decide

theorem wait_for_pid_eq_collapse (pid : Int) (outs : List WaitOutcome) :
    wait_for_pid pid outs = (wait_for_pid_status_nointr pid outs).map collapse_status := by
  induction outs with
  | nil => rfl
  | cons o outs ih =>
    unfold wait_for_pid wait_for_pid_status_nointr
    by_cases h1 : o.ret = -1
    · by_cases h2 : o.errno = EINTR
      · rw [if_pos h1, if_pos h2, if_pos h1, if_pos h2, ih]
      · rw [if_pos h1, if_neg h2, if_pos h1, if_neg h2]
        simp [collapse_status_neg_one]
    · by_cases h3 : o.ret = pid
      · rw [if_neg h1, if_neg (not_not_intro h3), if_neg h1, if_neg (not_not_intro h3)]
        by_cases h4 : WIFEXITED o.status = true <;>
          by_cases h5 : WEXITSTATUS o.status = 0 <;>
          simp [collapse_status, h4, h5]
      · rw [if_neg h1, if_pos h3, if_neg h1, if_pos h3, ih]

/-- C14: when `waitpid` answers `(pid, s)` (a successful call, so the returned
pid is not `-1`), also after answers that were retried,
`wait_for_pid_status_nointr` returns `s` itself, unmodified; on a `waitpid`
failure whose `errno` is not `EINTR` it returns `-1`; and, the statuses
stored by `waitpid` being kernel-encoded values (never `-1`), it returns `-1`
only in that case. -/
theorem wait_for_pid_status_nointr_raw (pid : Int) (outs : List WaitOutcome)
    (hst : ∀ o ∈ outs, o.ret ≠ -1 → o.status ≠ -1) :
    (∀ (pre rest : List WaitOutcome) (s e : Int), pid ≠ -1 →
      (∀ p ∈ pre, p.isEintr ∨ p.isMismatch pid) →
      wait_for_pid_status_nointr pid
        (pre ++ { ret := pid, status := s, errno := e } :: rest) = some s) ∧
    (∀ (pre rest : List WaitOutcome) (s e : Int), e ≠ EINTR →
      (∀ p ∈ pre, p.isEintr ∨ p.isMismatch pid) →
      wait_for_pid_status_nointr pid
        (pre ++ { ret := -1, status := s, errno := e } :: rest) = some (-1)) ∧
    (wait_for_pid_status_nointr pid outs = some (-1) →
      ∃ pre o rest, outs = pre ++ o :: rest ∧
        (∀ p ∈ pre, p.isEintr ∨ p.isMismatch pid) ∧ o.ret = -1 ∧ o.errno ≠ EINTR) := by
  refine ⟨?_, ?_, ?_⟩
  · intro pre rest s e hpid hpre
    rw [wait_for_pid_status_nointr_retry pid pre _ hpre]
    simp [wait_for_pid_status_nointr, hpid]
  · intro pre rest s e he hpre
    rw [wait_for_pid_status_nointr_retry pid pre _ hpre]
    simp [wait_for_pid_status_nointr, he]
  · intro h
    obtain ⟨pre, o, rest, e, hp, ho⟩ := wait_for_pid_status_nointr_source pid outs (-1) h
    refine ⟨pre, o, rest, e, hp, ?_⟩
    rcases ho with ⟨h1, h2, _⟩ | ⟨h1, _, h3⟩
    · exact ⟨h1, h2⟩
    · have hmem : o ∈ outs := by rw [e]; simp
      exact absurd h3.symm (hst o hmem h1)

/-- Witness of C14: pid 7 is requested; after an interruption and an answer
for pid 8, `waitpid` answers `(7, 9)` (killed by signal 9) and the raw `9` is
returned; an `ECHILD` failure gives `-1`. -/
theorem wait_for_pid_status_nointr_raw_witness :
    wait_for_pid_status_nointr 7 [{ ret := -1, status := 0, errno := 4 },
        { ret := 8, status := 0, errno := 0 }, { ret := 7, status := 9, errno := 0 }]
      = some 9 ∧
    wait_for_pid_status_nointr 7 [{ ret := -1, status := 0, errno := 10 }] = some (-1) ∧
    ∃ pre o rest, [({ ret := -1, status := 0, errno := 10 } : WaitOutcome)] = pre ++ o :: rest ∧
      (∀ p ∈ pre, p.isEintr ∨ p.isMismatch 7) ∧ o.ret = -1 ∧ o.errno ≠ EINTR := by
  have h := wait_for_pid_status_nointr_raw 7 [{ ret := -1, status := 0, errno := 10 }]
    (by decide)
  refine ⟨?_, ?_, h.2.2 (by decide)⟩
  · exact h.1 [{ ret := -1, status := 0, errno := 4 }, { ret := 8, status := 0, errno := 0 }]
      [] 9 0 (by decide) (by decide)
  · exact h.2.1 [] [] 0 10 (by decide) (by simp)

/-- C15: for every handle, `process_still_alive` returns true if and only if
the no-op probe succeeds, that is `incus_pidfd_send_signal` called on that
handle with signal number `0`, no siginfo (`NULL`) and flags `0`, which is the
`pidfd_send_signal` system call with these arguments, returns `0`; any
non-zero result of the probe gives false. -/
theorem process_still_alive_iff_probe (sys : Syscall) (pidfd : Int) :
    (process_still_alive sys pidfd = true ↔
      incus_pidfd_send_signal sys pidfd 0 0 0 = 0) ∧
    (incus_pidfd_send_signal sys pidfd 0 0 0 ≠ 0 →
      process_still_alive sys pidfd = false) ∧
    incus_pidfd_send_signal sys pidfd 0 0 0 = sys NR_pidfd_send_signal [pidfd, 0, 0, 0] := by
  refine ⟨?_, ?_, rfl⟩
  · simp [process_still_alive]
  · intro h
    simp [process_still_alive, h]

/-- Witness of C15: a kernel that answers `0` for the handle 5 and `-1` for
every other handle. -/
theorem process_still_alive_iff_probe_witness :
    process_still_alive (fun _ args => if args.head? = some 5 then 0 else -1) 5 = true ∧
    process_still_alive (fun _ args => if args.head? = some 5 then 0 else -1) 6 = false :=
  ⟨(process_still_alive_iff_probe
      (fun _ args => if args.head? = some 5 then 0 else -1) 5).1.mpr (by decide),
   (process_still_alive_iff_probe
      (fun _ args => if args.head? = some 5 then 0 else -1) 6).2.1 (by decide)⟩

/-- C19: `wait_for_pid` is the collapse of `wait_for_pid_status_nointr`: on
every sequence of `waitpid` answers the two return together, and
`wait_for_pid` returns `0` exactly when the value `r` returned by
`wait_for_pid_status_nointr` satisfies `WIFEXITED(r)` and
`WEXITSTATUS(r) = 0`, and `-1` otherwise; the error return `r = -1` does not
decode as a normal exit and collapses to `-1`. -/
theorem wait_for_pid_is_collapse (pid : Int) (outs : List WaitOutcome) :
    wait_for_pid pid outs =
      (wait_for_pid_status_nointr pid outs).map collapse_status ∧
    (wait_for_pid pid outs).isSome = (wait_for_pid_status_nointr pid outs).isSome ∧
    (∀ r, wait_for_pid_status_nointr pid outs = some r →
      (wait_for_pid pid outs = some 0 ↔ (WIFEXITED r = true ∧ WEXITSTATUS r = 0)) ∧
      (¬ (WIFEXITED r = true ∧ WEXITSTATUS r = 0) → wait_for_pid pid outs = some (-1))) ∧
    WIFEXITED (-1) = false ∧ collapse_status (-1) = -1 := by
  have h := wait_for_pid_eq_collapse pid outs
  refine ⟨h, by rw [h]; simp, ?_, by decide, by decide⟩
  intro r hr
  rw [h, hr]
  by_cases hc : WIFEXITED r = true ∧ WEXITSTATUS r = 0
  · simp [collapse_status, hc]
  · simp [collapse_status, hc]

/-- Witness of C19: the raw status `256` (exit code 1) collapses to `-1`, the
raw status `0` to `0`. -/
theorem wait_for_pid_is_collapse_witness :
    wait_for_pid 7 [{ ret := 7, status := 256, errno := 0 }] = some (-1) ∧
    wait_for_pid 7 [{ ret := 7, status := 0, errno := 0 }] = some 0 :=
  ⟨((wait_for_pid_is_collapse 7 [{ ret := 7, status := 256, errno := 0 }]).2.2.1 256
      (by decide)).2 (by decide),
   ((wait_for_pid_is_collapse 7 [{ ret := 7, status := 0, errno := 0 }]).2.2.1 0
      (by decide)).1.mpr (by decide)⟩


/-! ### More on `strlcpy` -/

theorem strlcpy_cstr (dest src : List Nat) (size : Nat) (hpos : 0 < size)
    (hsz : size ≤ dest.length) :
    cstr (strlcpy dest src size).2 = (cstr src).take (size - 1) := by
  rw [strlcpy_buffer dest src size hpos hsz, take_min_cstr]
  exact cstr_append_nul _ _ (fun c hc => cstr_no_nul src c (List.mem_of_mem_take hc))

theorem strlcpy_after_nul (dest src : List Nat) (size i : Nat) (hpos : 0 < size)
    (hsz : size ≤ dest.length) (hi : min (strlen src) (size - 1) < i) :
    (strlcpy dest src size).2[i]? = dest[i]? := by
  have hm : min (strlen src) (size - 1) ≤ src.length :=
    Nat.le_trans (Nat.min_le_left _ _) (strlen_le_length src)
  have hl : (src.take (min (strlen src) (size - 1))).length =
      min (strlen src) (size - 1) := by
    rw [List.length_take]; omega
  rw [strlcpy_buffer dest src size hpos hsz,
    List.getElem?_append_right (by rw [hl]; omega), hl]
  obtain ⟨j, hj⟩ : ∃ j, i - min (strlen src) (size - 1) = j + 1 :=
    ⟨i - min (strlen src) (size - 1) - 1, by omega⟩
  rw [hj, List.getElem?_cons_succ, List.getElem?_drop]
  congr 1
  omega

theorem take_eq_self_iff_length_le (l : List Nat) (n : Nat) : l.take n = l ↔ l.length ≤ n := by
  constructor
  · intro h
    have := congrArg List.length h
    rw [List.length_take] at this
    omega
  · exact List.take_of_length_le

/-- C20: for every `src`, `dest` and `size`, `strlcpy` returns `strlen(src)`,
whatever `size` and the destination are; for `size > 0` (the destination
having at least `size` bytes) the copy was truncated, that is the string left
in `dest` differs from `src`, if and only if the returned value is `≥ size`;
when the returned value is `< size` the string in `dest` equals `src`; and the
bytes of `dest` after the written NUL are left unchanged. -/
theorem strlcpy_returns_strlen (dest src : List Nat) (size : Nat)
    (hsz : size ≤ dest.length) :
    (∀ (dest' : List Nat) (size' : Nat), (strlcpy dest' src size').1 = strlen src) ∧
    (0 < size →
      (cstr (strlcpy dest src size).2 ≠ cstr src ↔ size ≤ (strlcpy dest src size).1)) ∧
    (0 < size → (strlcpy dest src size).1 < size →
      cstr (strlcpy dest src size).2 = cstr src ∧
      (strlcpy dest src size).2 = cstr src ++ 0 :: dest.drop (strlen src + 1)) ∧
    (0 < size → ∀ i, min (strlen src) (size - 1) < i →
      (strlcpy dest src size).2[i]? = dest[i]?) := by
  have hret : ∀ (dest' : List Nat) (size' : Nat), (strlcpy dest' src size').1 = strlen src := by
    intro dest' size'
    unfold strlcpy
    split <;> rfl
  refine ⟨hret, ?_, ?_, fun hpos i hi => strlcpy_after_nul dest src size i hpos hsz hi⟩
  · intro hpos
    rw [strlcpy_cstr dest src size hpos hsz, hret, ne_eq, take_eq_self_iff_length_le,
      ← strlen_eq_cstr_length]
    omega
  · intro hpos hlt
    rw [hret] at hlt
    have hmin : min (strlen src) (size - 1) = strlen src := by omega
    constructor
    · rw [strlcpy_cstr dest src size hpos hsz]
      exact List.take_of_length_le (by rw [← strlen_eq_cstr_length]; omega)
    · rw [strlcpy_buffer dest src size hpos hsz, hmin, take_strlen]

/-- Witness of C20: `"hello"` copied with `size = 4` returns 5 (truncated),
with `size = 6` into an eight-byte buffer it returns 5 and leaves `"hello"`,
NUL and the last two bytes as they were. -/
theorem strlcpy_returns_strlen_witness :
    (strlcpy [9, 9, 9, 9, 9, 9, 9, 9] [104, 101, 108, 108, 111, 0] 4).1 = 5 ∧
    cstr (strlcpy [9, 9, 9, 9, 9, 9, 9, 9] [104, 101, 108, 108, 111, 0] 4).2 ≠
      cstr [104, 101, 108, 108, 111, 0] ∧
    (strlcpy [9, 9, 9, 9, 9, 9, 9, 9] [104, 101, 108, 108, 111, 0] 6).2 =
      [104, 101, 108, 108, 111, 0, 9, 9] := by
  have h4 := strlcpy_returns_strlen [9, 9, 9, 9, 9, 9, 9, 9] [104, 101, 108, 108, 111, 0] 4
    (by decide)
  have h6 := strlcpy_returns_strlen [9, 9, 9, 9, 9, 9, 9, 9] [104, 101, 108, 108, 111, 0] 6
    (by decide)
  exact ⟨h4.1 _ _, (h4.2.1 (by decide)).mpr (by decide),
    (h6.2.2.1 (by decide) (by decide)).2⟩

/-! ### The list invariant -/

/-- Counterexample to C17: on the list `[5, 6, NULL]` a successful
`append_null_to_list` returns with the array `[5, 6, NULL, NULL]`: it holds
two `NULL` entries, and it is not a sequence of non-null pointers ended by a
sole `NULL` sentinel. -/
theorem append_null_to_list_two_nulls :
    (append_null_to_list { addr := 64, slots := [5, 6, 0] }
        { addr := 128, junk := fun _ => 7 }).2.slots = [5, 6, 0, 0] ∧
    (append_null_to_list { addr := 64, slots := [5, 6, 0] }
        { addr := 128, junk := fun _ => 7 }).2.slots.count 0 = 2 ∧
    ∀ entries : List Ptr,
      ¬ IsList (append_null_to_list { addr := 64, slots := [5, 6, 0] }
        { addr := 128, junk := fun _ => 7 }).2 entries := by
  have hs : (append_null_to_list { addr := 64, slots := [5, 6, 0] }
        { addr := 128, junk := fun _ => 7 }).2 = { addr := 128, slots := [5, 6, 0, 0] } := by
    decide
  refine ⟨by rw [hs], by rw [hs]; decide, ?_⟩
  intro entries h
  rw [hs] at h
  obtain ⟨hne, ⟨h0, _⟩ | ⟨_, hsl⟩⟩ := h
  · exact absurd h0 (by decide)
  · have h1 : ([5, 6, 0] : List Ptr) ++ [0] = entries ++ [0] := hsl
    have h2 := List.append_cancel_right h1
    exact hne 0 (by rw [← h2]; simp) rfl

/-- C17, amended: `push_vargs` keeps the list invariant, on success and on
failure: called on a list that is either the `NULL` list or an array of
non-null pointers ended by a `NULL` sentinel that is its sole `NULL` entry, it
returns with such a list (the same list on failure, the list with the copy
appended on success). A failed `append_null_to_list` leaves the list as it
was. A successful `append_null_to_list` returns with the array holding the
old entries, then the returned slot (`NULL` for an allocated list, not
initialised for the `NULL` list), then the `NULL` sentinel. -/
theorem list_invariant_kept (h : StrHeap) (l : PtrList) (entries : List Ptr)
    (entry : List Nat) (a : PushAnswers) (hl : IsList l entries) :
    ((a.dup = 0 ∨ a.re.addr = 0) → (push_vargs h l entry a).list = l) ∧
    ((a.dup ≠ 0 ∧ a.re.addr ≠ 0) →
      IsList (push_vargs h l entry a).list (entries ++ [a.dup])) ∧
    (∃ entries', IsList (push_vargs h l entry a).list entries') ∧
    (a.re.addr = 0 → (append_null_to_list l a.re).2 = l) ∧
    (a.re.addr ≠ 0 →
      (append_null_to_list l a.re).2.slots =
        entries ++ [if l.addr = 0 then a.re.junk 0 else 0, 0]) := by
  have hfail : (a.dup = 0 ∨ a.re.addr = 0) → (push_vargs h l entry a).list = l := by
    intro hf
    rw [push_vargs_fail h l entry a hf]
  have hok : (a.dup ≠ 0 ∧ a.re.addr ≠ 0) →
      IsList (push_vargs h l entry a).list (entries ++ [a.dup]) := by
    intro ⟨hd, hr⟩
    rw [push_vargs_ok h l entries entry a hl hd hr]
    refine ⟨?_, Or.inr ⟨hr, by simp⟩⟩
    intro e he
    rcases List.mem_append.mp he with he | he
    · exact hl.1 e he
    · rw [List.mem_singleton] at he; exact he ▸ hd
  refine ⟨hfail, hok, ?_, ?_, ?_⟩
  · by_cases hf : a.dup = 0 ∨ a.re.addr = 0
    · exact ⟨entries, by rw [hfail hf]; exact hl⟩
    · have hf' : a.dup ≠ 0 ∧ a.re.addr ≠ 0 := by
        constructor
        · exact fun h0 => hf (Or.inl h0)
        · exact fun h0 => hf (Or.inr h0)
      exact ⟨_, hok hf'⟩
  · intro hr
    rw [append_null_to_list_fail l a.re hr]
  · intro hr
    rcases hl with ⟨hne, ⟨h0, he⟩ | ⟨h1, hs⟩⟩
    · subst he
      rw [append_null_to_list_null l a.re h0 hr]
      simp [h0]
    · rw [append_null_to_list_alloc l entries [] a.re h1 hs hne hr]
      simp [h1]

/-- Witness of C17, amended: a successful and a failed push on
`[5, 6, NULL]`. -/
theorem list_invariant_kept_witness :
    IsList (push_vargs [] { addr := 64, slots := [5, 6, 0] } [97, 0]
      { dup := 10, re := { addr := 128, junk := fun _ => 7 } }).list [5, 6, 10] ∧
    (push_vargs [] { addr := 64, slots := [5, 6, 0] } [97, 0]
      { dup := 10, re := { addr := 0, junk := fun _ => 7 } }).list =
      { addr := 64, slots := [5, 6, 0] } :=
  ⟨(list_invariant_kept [] { addr := 64, slots := [5, 6, 0] } [5, 6] [97, 0]
      { dup := 10, re := { addr := 128, junk := fun _ => 7 } } (by decide)).2.1
      ⟨by decide, by decide⟩,
   (list_invariant_kept [] { addr := 64, slots := [5, 6, 0] } [5, 6] [97, 0]
      { dup := 10, re := { addr := 0, junk := fun _ => 7 } } (by decide)).1 (Or.inr rfl)⟩


/-! ### Lemmas on `setproctitle` -/

theorem to_int32_of_lt (n : Nat) (h : n < 2 ^ 31) : to_int32 n = (n : Int) := by
  have h' : (n : Int) < 2147483648 := by
    have : (2 : Nat) ^ 31 = 2147483648 := by norm_num
    omega
  unfold to_int32
  norm_num
  rw [Int.emod_eq_of_lt (by omega) (by omega)]
  omega

/-- Beyond the range of `int` the conversion wraps: a size of `2^32 + 1` is
read as `1`, a size of `2^31` as a negative number. -/
theorem to_int32_wraps : to_int32 (2 ^ 32 + 1) = 1 ∧ to_int32 (2 ^ 31) = -(2 ^ 31) := by
  decide

theorem to_uint64_of_nat (n : Nat) (h : n < 2 ^ 64) : to_uint64 (n : Int) = n := by
  have h' : (n : Int) < 18446744073709551616 := by
    have : (2 : Nat) ^ 64 = 18446744073709551616 := by norm_num
    omega
  unfold to_uint64
  norm_num
  rw [Int.emod_eq_of_lt (by omega) (by omega)]
  simp

theorem realloc_bytes_length (old : List Nat) (n : Nat) (a : ReallocAnswer) :
    (realloc_bytes old n a).length = n := by
  simp [realloc_bytes]
  omega

theorem realloc_bytes_take (old : List Nat) (n : Nat) (a : ReallocAnswer) :
    (realloc_bytes old n a).take (min old.length n) = old.take (min old.length n) := by
  unfold realloc_bytes
  rw [List.take_append_of_le_length (by rw [List.length_take]; omega), List.take_take]
  congr 1
  omega

theorem strlcpy_exact_fit (dest title : List Nat) (hd : dest.length = strlen title + 1) :
    (strlcpy dest title (strlen title + 1)).2 = cstr title ++ [0] := by
  rw [strlcpy_buffer dest title _ (Nat.succ_pos _) (Nat.le_of_eq hd.symm)]
  have hmin : min (strlen title) (strlen title + 1 - 1) = strlen title := by omega
  rw [hmin, take_strlen, List.drop_of_length_le (Nat.le_of_eq hd)]


theorem title_size_of_fit (title : List Nat) (h : strlen title + 1 < 2 ^ 31) :
    title_size title = strlen title + 1 := by
  unfold title_size title_len
  rw [to_int32_of_lt _ h]
  exact to_uint64_of_nat _ (Nat.lt_trans h (by norm_num))

theorem title_arg_end_of_fit (addr : Ptr) (title : List Nat)
    (h : strlen title + 1 < 2 ^ 31) (ha : addr + (strlen title + 1) < 2 ^ 64) :
    title_arg_end addr title = addr + (strlen title + 1) := by
  unfold title_arg_end title_len
  rw [to_int32_of_lt _ h, ← Nat.cast_add]
  exact to_uint64_of_nat _ ha

theorem title_size_ne_zero (title : List Nat) (h : (strlen title + 1) % 2 ^ 32 ≠ 0) :
    title_size title ≠ 0 := by
  have h' : ((strlen title + 1 : Nat) : Int) % 4294967296 ≠ 0 := by
    have : (2 : Nat) ^ 32 = 4294967296 := by norm_num
    omega
  unfold title_size title_len to_uint64 to_int32
  norm_num
  omega

theorem strlen_long_title (n : Nat) : strlen (long_title n) = n := by
  unfold long_title
  induction n with
  | zero => simp [strlen]
  | succ n ih => simp [List.replicate_succ, strlen, ih]

theorem setproctitle_from_realloc (st : TitleState) (title : List Nat) (env : TitleEnv)
    (d : Discovered) (h : ReachesRealloc env d) :
    setproctitle st title env =
      if env.re.addr = 0 then
        { ret := -1,
          state :=
            if title_size title = 0 ∧ env.free_on_zero = true ∧ st.proctitle ≠ 0 then
              { st with buf := [] }
            else st,
          trace := [TitleEvent.realloc (title_size title)] }
      else if env.prctl = 0 then
        { ret := env.prctl,
          state := { proctitle := env.re.addr,
                     buf := (strlcpy (realloc_bytes st.content (title_size title) env.re)
                       title (title_size title)).2,
                     mm := title_map d env.brk env.re.addr
                       (title_arg_end env.re.addr title) },
          trace := [TitleEvent.realloc (title_size title), TitleEvent.brk,
                    TitleEvent.publish (title_map d env.brk env.re.addr
                      (title_arg_end env.re.addr title)),
                    TitleEvent.copy title (title_size title)] }
      else
        { ret := env.prctl,
          state := { proctitle := env.re.addr,
                     buf := realloc_bytes st.content (title_size title) env.re,
                     mm := st.mm },
          trace := [TitleEvent.realloc (title_size title), TitleEvent.brk,
                    TitleEvent.publish (title_map d env.brk env.re.addr
                      (title_arg_end env.re.addr title))] } := by
  obtain ⟨hf, hfd, hd, hne⟩ := h
  have hfd' : ¬ env.fd < 0 := by omega
  cases hs : env.stat with
  | none => rw [hs] at hd; simp at hd
  | some bytes_read =>
    rw [hs] at hd hne
    have hdisc : setproctitle_discover bytes_read = some d := by simpa using hd
    have hnil : bytes_read.length ≠ 0 := by
      intro h0
      exact hne (by rw [List.length_eq_zero.mp h0])
    unfold setproctitle
    simp only [hf, hfd', hs, hnil, hdisc, if_false, Bool.false_eq_true]
    rfl

theorem setproctitle_fit (st : TitleState) (title : List Nat) (env : TitleEnv)
    (d : Discovered) (h : ReachesPrctl env d) (hfit : strlen title + 1 < 2 ^ 31)
    (hsp : env.re.addr + (strlen title + 1) < 2 ^ 64) :
    setproctitle st title env =
      if env.prctl = 0 then
        { ret := env.prctl,
          state := { proctitle := env.re.addr, buf := cstr title ++ [0],
                     mm := title_map d env.brk env.re.addr
                       (env.re.addr + (strlen title + 1)) },
          trace := [TitleEvent.realloc (strlen title + 1), TitleEvent.brk,
                    TitleEvent.publish (title_map d env.brk env.re.addr
                      (env.re.addr + (strlen title + 1))),
                    TitleEvent.copy title (strlen title + 1)] }
      else
        { ret := env.prctl,
          state := { proctitle := env.re.addr,
                     buf := realloc_bytes st.content (strlen title + 1) env.re,
                     mm := st.mm },
          trace := [TitleEvent.realloc (strlen title + 1), TitleEvent.brk,
                    TitleEvent.publish (title_map d env.brk env.re.addr
                      (env.re.addr + (strlen title + 1)))] } := by
  rw [setproctitle_from_realloc st title env d h.1, if_neg h.2,
    title_size_of_fit title hfit, title_arg_end_of_fit _ title hfit hsp,
    strlcpy_exact_fit _ _ (realloc_bytes_length _ _ _)]

theorem setproctitle_early_fail (st : TitleState) (title : List Nat) (env : TitleEnv)
    (h : (∀ b, env.stat = some b → setproctitle_discover b = none) ∨
      (env.re.addr = 0 ∧ (title_size title ≠ 0 ∨ env.free_on_zero = false))) :
    (setproctitle st title env).ret = -1 ∧
    (setproctitle st title env).state = st ∧
    ∀ e ∈ (setproctitle st title env).trace, ∃ n, e = TitleEvent.realloc n := by
  unfold setproctitle
  split
  · simp
  · split
    · simp
    · split
      · simp
      · rename_i b hb
        split
        · simp
        · split
          · simp
          · rename_i d hd
            rcases h with h | ⟨h, hz⟩
            · rw [h b hb] at hd; simp at hd
            · have hc : ¬ (to_uint64 (to_int32 (strlen title + 1)) = 0 ∧
                  env.free_on_zero = true ∧ st.proctitle ≠ 0) := by
                rintro ⟨h1, h2, _⟩
                rcases hz with hz | hz
                · exact hz h1
                · rw [hz] at h2; cases h2
              simp only [h, if_true, if_neg hc]
              simp

theorem setproctitle_seq_append (st : TitleState) (pre : List (List Nat × TitleEnv))
    (title : List Nat) (env : TitleEnv) :
    setproctitle_seq st (pre ++ [(title, env)]) =
      ((setproctitle_seq st pre).1 ++
          [(setproctitle (setproctitle_seq st pre).2 title env).ret],
        (setproctitle (setproctitle_seq st pre).2 title env).state) := by
  induction pre generalizing st with
  | nil => simp [setproctitle_seq]
  | cons c pre ih =>
    obtain ⟨t, e⟩ := c
    simp [setproctitle_seq, ih]


/-! ### Lemmas on a failing discovery phase -/

theorem strchr_none (s : List Nat) (c : Nat) (h : c ∉ s) : strchr s c = none := by
  induction s with
  | nil => rfl
  | cons x xs ih =>
    have hx : x ≠ c := fun e => h (e ▸ List.mem_cons_self _ _)
    simp [strchr, hx, ih (fun hm => h (List.mem_cons_of_mem _ hm))]

theorem skip_fields_short (n : Nat) :
    ∀ (x : Nat) (w : List Nat) (fs : List (List Nat)) (tail : List Nat),
      32 ∉ w → (∀ f ∈ fs, 32 ∉ f) → 32 ∉ tail → fs.length ≤ n →
      skip_fields (n + 1) (x :: (w ++ join_fields fs tail)) = none := by
  induction n with
  | zero =>
    intro x w fs tail hw _ ht hlen
    have hnil : fs = [] := List.length_eq_zero.mp (Nat.le_zero.mp hlen)
    subst hnil
    have : 32 ∉ w ++ tail := by simp [hw, ht]
    simp [skip_fields, join_fields, strchr_none _ 32 this]
  | succ n ih =>
    intro x w fs tail hw hfs ht hlen
    cases fs with
    | nil =>
      have : 32 ∉ w ++ tail := by simp [hw, ht]
      simp [skip_fields, join_fields, strchr_none _ 32 this]
    | cons f fs =>
      have hf : 32 ∉ f := hfs f (List.mem_cons_self _ _)
      have hfs' : ∀ g ∈ fs, 32 ∉ g := fun g hg => hfs g (List.mem_cons_of_mem _ hg)
      have hlen' : fs.length ≤ n := by simpa using hlen
      have := ih 32 f fs tail hf hfs' ht hlen'
      rw [skip_fields]
      simp only [List.drop_succ_cons, List.drop_zero, join_fields,
        strchr_first w _ 32 hw]
      exact this

theorem isspace_not_digit (c : Nat) (h : isspace c = true) : isdigit c = false := by
  simp only [isspace, Bool.or_eq_true, beq_iff_eq, Bool.and_eq_true, decide_eq_true_eq] at h
  simp only [isdigit, Bool.and_eq_false_iff, decide_eq_false_iff_not]
  omega

theorem dropWhile_space_all (t : List Nat) (ht : ∀ c ∈ t, isspace c = true) :
    t.dropWhile isspace = [] := by
  induction t with
  | nil => rfl
  | cons c cs ih =>
    have hc := ht c (List.mem_cons_self _ _)
    simp [List.dropWhile, hc, ih (fun x hx => ht x (List.mem_cons_of_mem _ hx))]

theorem scan_u_space_only (t : List Nat) (ht : ∀ c ∈ t, isspace c = true) :
    scan_u t = none := by
  simp [scan_u, dropWhile_space_all t ht]

theorem sscanf_space_only (ds : List Directive) :
    ∀ (t : List Nat), (∀ c ∈ t, isspace c = true) → sscanf ds t = [] := by
  induction ds with
  | nil => intro t _; rfl
  | cons dir ds ih =>
    intro t ht
    cases dir with
    | ws =>
      rw [sscanf, dropWhile_space_all t ht]
      exact ih [] (by simp)
    | u a =>
      rw [sscanf, scan_u_space_only t ht]

theorem takeWhile_digits_end (f t : List Nat) (hf : ∀ c ∈ f, isdigit c = true)
    (ht : ∀ c ∈ t, isspace c = true) :
    (f ++ t).takeWhile isdigit = f ∧ (f ++ t).dropWhile isdigit = t := by
  induction f with
  | nil =>
    cases t with
    | nil => simp
    | cons c cs =>
      have hc := isspace_not_digit c (ht c (List.mem_cons_self _ _))
      simp [List.takeWhile, List.dropWhile, hc]
  | cons d ds ih =>
    have hd := hf d (List.mem_cons_self _ _)
    have := ih (fun c hc => hf c (List.mem_cons_of_mem _ hc))
    simp [List.takeWhile, List.dropWhile, hd, this]

theorem scan_u_number_end (f t : List Nat) (hf : IsNumber f)
    (ht : ∀ c ∈ t, isspace c = true) :
    scan_u (f ++ t) = some (strtoul_value false f, t) := by
  obtain ⟨hne, hdig⟩ := hf
  cases f with
  | nil => exact absurd rfl hne
  | cons d ds =>
    have hd := hdig d (List.mem_cons_self _ _)
    obtain ⟨hsp, h43, h45⟩ := isdigit_facts d hd
    have htd := takeWhile_digits_end (d :: ds) t hdig ht
    have hdw : (d :: ds ++ t).dropWhile isspace = d :: ds ++ t := by
      simp [List.dropWhile, hsp]
    unfold scan_u
    rw [hdw]
    have hsign : (match d :: ds ++ t with
        | 43 :: r => (false, r)
        | 45 :: r => (true, r)
        | _ => (false, d :: ds ++ t)) = (false, d :: ds ++ t) := by
      split
      · rename_i heq; simp at heq; exact absurd heq.1 h43
      · rename_i heq; simp at heq; exact absurd heq.1 h45
      · rfl
    simp only [hsign, htd.1, htd.2]
    simp

theorem sscanf_u_end (a : Bool) (ds : List Directive) (f t : List Nat) (hf : IsNumber f)
    (ht : ∀ c ∈ t, isspace c = true) :
    sscanf (Directive.u a :: ds) (32 :: (f ++ t)) =
      if a then [strtoul_value false f] else [] := by
  simp [sscanf, scan_u_space, scan_u_number_end f t hf ht, sscanf_space_only ds t ht]

theorem sscanf_ws_u_end (a : Bool) (ds : List Directive) (f t : List Nat)
    (hf : IsNumber f) (ht : ∀ c ∈ t, isspace c = true) :
    sscanf (Directive.ws :: Directive.u a :: ds) (32 :: (f ++ t)) =
      if a then [strtoul_value false f] else [] := by
  rw [sscanf, dropWhile_space_number f _ hf]
  simp [sscanf, scan_u_number_end f t hf ht, sscanf_space_only ds t ht]

theorem sscanf_data_env_short (fs : List (List Nat)) (t : List Nat)
    (hfs : ∀ f ∈ fs, IsNumber f) (ht : ∀ c ∈ t, isspace c = true) (hlen : fs.length ≤ 6) :
    (sscanf fmt_data_env (join_fields fs t)).length < 5 := by
  rcases fs with _ | ⟨f1, _ | ⟨f2, _ | ⟨f3, _ | ⟨f4, _ | ⟨f5, _ | ⟨f6, _ | ⟨f7, fs⟩⟩⟩⟩⟩⟩⟩
  · simp [join_fields, sscanf_space_only _ t ht]
  · have h1 := hfs f1 (by simp)
    simp only [join_fields, fmt_data_env]
    rw [sscanf_u_end _ _ _ _ h1 ht]
    simp
  · have h1 := hfs f1 (by simp)
    have h2 := hfs f2 (by simp)
    simp only [join_fields, fmt_data_env]
    rw [sscanf_u _ _ _ _ h1, sscanf_ws_u_end _ _ _ _ h2 ht]
    simp
  · have h1 := hfs f1 (by simp)
    have h2 := hfs f2 (by simp)
    have h3 := hfs f3 (by simp)
    simp only [join_fields, fmt_data_env]
    rw [sscanf_u _ _ _ _ h1, sscanf_ws_u _ _ _ _ h2, sscanf_ws_u_end _ _ _ _ h3 ht]
    simp
  · have h1 := hfs f1 (by simp)
    have h2 := hfs f2 (by simp)
    have h3 := hfs f3 (by simp)
    have h4 := hfs f4 (by simp)
    simp only [join_fields, fmt_data_env]
    rw [sscanf_u _ _ _ _ h1, sscanf_ws_u _ _ _ _ h2, sscanf_ws_u _ _ _ _ h3,
      sscanf_ws_u_end _ _ _ _ h4 ht]
    simp
  · have h1 := hfs f1 (by simp)
    have h2 := hfs f2 (by simp)
    have h3 := hfs f3 (by simp)
    have h4 := hfs f4 (by simp)
    have h5 := hfs f5 (by simp)
    simp only [join_fields, fmt_data_env]
    rw [sscanf_u _ _ _ _ h1, sscanf_ws_u _ _ _ _ h2, sscanf_ws_u _ _ _ _ h3,
      sscanf_ws_u _ _ _ _ h4, sscanf_ws_u_end _ _ _ _ h5 ht]
    simp
  · have h1 := hfs f1 (by simp)
    have h2 := hfs f2 (by simp)
    have h3 := hfs f3 (by simp)
    have h4 := hfs f4 (by simp)
    have h5 := hfs f5 (by simp)
    have h6 := hfs f6 (by simp)
    simp only [join_fields, fmt_data_env]
    rw [sscanf_u _ _ _ _ h1, sscanf_ws_u _ _ _ _ h2, sscanf_ws_u _ _ _ _ h3,
      sscanf_ws_u _ _ _ _ h4, sscanf_ws_u _ _ _ _ h5, sscanf_ws_u_end _ _ _ _ h6 ht]
    simp
  · simp at hlen


theorem scan_u_not_numeric (f rest : List Nat) (h : NotNumeric f) :
    scan_u (f ++ rest) = none := by
  cases f with
  | nil => exact absurd h (by simp [NotNumeric])
  | cons c r =>
    obtain ⟨hsp, hdig, h43, h45⟩ := h
    have hdw : (c :: r ++ rest).dropWhile isspace = c :: r ++ rest := by
      simp [List.dropWhile, hsp]
    unfold scan_u
    rw [hdw]
    have hsign : (match c :: r ++ rest with
        | 43 :: t => (false, t)
        | 45 :: t => (true, t)
        | _ => (false, c :: r ++ rest)) = (false, c :: r ++ rest) := by
      split
      · rename_i heq; simp at heq; exact absurd heq.1 h43
      · rename_i heq; simp at heq; exact absurd heq.1 h45
      · rfl
    simp only [hsign]
    simp [List.takeWhile, hdig]

theorem sscanf_u_bad (a : Bool) (ds : List Directive) (f rest : List Nat)
    (h : NotNumeric f) : sscanf (Directive.u a :: ds) (32 :: (f ++ rest)) = [] := by
  simp [sscanf, scan_u_space, scan_u_not_numeric f rest h]

theorem sscanf_ws_u_bad (a : Bool) (ds : List Directive) (f rest : List Nat)
    (h : NotNumeric f) :
    sscanf (Directive.ws :: Directive.u a :: ds) (32 :: (f ++ rest)) = [] := by
  have h32 : isspace 32 = true := by decide
  rw [sscanf, List.dropWhile_cons, if_pos h32]
  simp [sscanf, scan_u_not_numeric]
  rw [show List.dropWhile isspace (f ++ rest) = f ++ rest from by
    cases f with
    | nil => exact absurd h (by simp [NotNumeric])
    | cons c r => simp [List.dropWhile, h.1]]
  simp [scan_u_not_numeric f rest h]


theorem discover_inputs (buf pre : List Nat) (fields : List (List Nat)) (tail : List Nat)
    (hbuf : cstr buf = pre ++ 41 :: join_fields fields tail)
    (hlen : 42 < fields.length)
    (hsep : ∀ f ∈ fields, 32 ∉ f ∧ 41 ∉ f)
    (htail : 41 ∉ tail) :
    strrchr (cstr buf) 41 = some (41 :: join_fields fields tail) ∧
    skip_fields 24 (41 :: join_fields fields tail) =
      some (join_fields (fields.drop 23) tail) ∧
    skip_fields 19 (join_fields (fields.drop 23) tail) =
      some (join_fields (fields.drop 42) tail) := by
  have hsp : ∀ f ∈ fields, 32 ∉ f := fun f hf => (hsep f hf).1
  have hpar : 41 ∉ join_fields fields tail :=
    not_mem_join_fields 41 (by decide) fields tail (fun f hf => (hsep f hf).2) htail
  have hA : 23 < fields.length := by omega
  refine ⟨?_, ?_, ?_⟩
  · rw [hbuf]
    exact strrchr_last _ _ 41 hpar
  · have := skip_fields_join 23 41 [] fields tail (by simp) hsp hA
    rwa [List.nil_append] at this
  · have h26 : 32 ∉ field fields 26 := by
      have hm : field fields 26 ∈ fields.drop 23 := by
        rw [drop_eq_field fields 23 hA]; exact List.mem_cons_self _ _
      exact hsp _ (List.mem_of_mem_drop hm)
    have := skip_fields_join 18 32 (field fields 26) (fields.drop 24) tail h26
      (fun f hf => hsp f (List.mem_of_mem_drop hf)) (by rw [List.length_drop]; omega)
    rw [List.drop_drop] at this
    rw [drop_eq_field fields 23 hA, join_fields]
    exact this

theorem discover_none_bad_field (buf pre : List Nat) (fields : List (List Nat))
    (tail : List Nat)
    (hbuf : cstr buf = pre ++ 41 :: join_fields fields tail)
    (hlen : fields.length = 50)
    (hsep : ∀ f ∈ fields, 32 ∉ f ∧ 41 ∉ f)
    (htail : 41 ∉ tail)
    (hbad :
      (∃ k ∈ [26, 27, 28], NotNumeric (field fields k) ∧
        ∀ j ∈ [26, 27, 28], j < k → IsNumber (field fields j)) ∨
      (∃ k ∈ [45, 46, 47, 48, 49, 50, 51], NotNumeric (field fields k) ∧
        ∀ j ∈ [45, 46, 47, 48, 49, 50, 51], j < k → IsNumber (field fields j))) :
    setproctitle_discover buf = none := by
  obtain ⟨h0, h1, h2⟩ := discover_inputs buf pre fields tail hbuf (by omega) hsep htail
  have e23 : fields.drop 23 = field fields 26 :: field fields 27 :: field fields 28 ::
      field fields 29 :: fields.drop 27 := by
    rw [drop_eq_field fields 23 (by omega), drop_eq_field fields 24 (by omega),
      drop_eq_field fields 25 (by omega), drop_eq_field fields 26 (by omega)]
  have e42 : fields.drop 42 = field fields 45 :: field fields 46 :: field fields 47 ::
      field fields 48 :: field fields 49 :: field fields 50 :: field fields 51 ::
      field fields 52 :: fields.drop 50 := by
    rw [drop_eq_field fields 42 (by omega), drop_eq_field fields 43 (by omega),
      drop_eq_field fields 44 (by omega), drop_eq_field fields 45 (by omega),
      drop_eq_field fields 46 (by omega), drop_eq_field fields 47 (by omega),
      drop_eq_field fields 48 (by omega), drop_eq_field fields 49 (by omega)]
  rcases hbad with ⟨k, hk, hnot, hnum⟩ | ⟨k, hk, hnot, hnum⟩
  · have s1 : (sscanf fmt_code_stack (join_fields (fields.drop 23) tail)).length < 3 := by
      rw [e23]
      simp only [join_fields, fmt_code_stack]
      simp only [List.mem_cons, List.mem_singleton, List.not_mem_nil, or_false] at hk
      rcases hk with rfl | rfl | rfl
      · rw [sscanf_u_bad _ _ _ _ hnot]; simp
      · rw [sscanf_u _ _ _ _ (hnum 26 (by simp) (by decide)),
          sscanf_ws_u_bad _ _ _ _ hnot]
        simp
      · rw [sscanf_u _ _ _ _ (hnum 26 (by simp) (by decide)),
          sscanf_ws_u _ _ _ _ (hnum 27 (by simp) (by decide)),
          sscanf_ws_u_bad _ _ _ _ hnot]
        simp
    unfold setproctitle_discover
    simp only [h0, h1]
    split
    · rename_i heq
      rw [heq] at s1
      simp at s1
    · rfl
  · have s2 : (sscanf fmt_data_env (join_fields (fields.drop 42) tail)).length < 5 := by
      rw [e42]
      simp only [join_fields, fmt_data_env]
      simp only [List.mem_cons, List.mem_singleton, List.not_mem_nil, or_false] at hk
      rcases hk with rfl | rfl | rfl | rfl | rfl | rfl | rfl
      · rw [sscanf_u_bad _ _ _ _ hnot]; simp
      · rw [sscanf_u _ _ _ _ (hnum 45 (by simp) (by decide)),
          sscanf_ws_u_bad _ _ _ _ hnot]
        simp
      · rw [sscanf_u _ _ _ _ (hnum 45 (by simp) (by decide)),
          sscanf_ws_u _ _ _ _ (hnum 46 (by simp) (by decide)),
          sscanf_ws_u_bad _ _ _ _ hnot]
        simp
      · rw [sscanf_u _ _ _ _ (hnum 45 (by simp) (by decide)),
          sscanf_ws_u _ _ _ _ (hnum 46 (by simp) (by decide)),
          sscanf_ws_u _ _ _ _ (hnum 47 (by simp) (by decide)),
          sscanf_ws_u_bad _ _ _ _ hnot]
        simp
      · rw [sscanf_u _ _ _ _ (hnum 45 (by simp) (by decide)),
          sscanf_ws_u _ _ _ _ (hnum 46 (by simp) (by decide)),
          sscanf_ws_u _ _ _ _ (hnum 47 (by simp) (by decide)),
          sscanf_ws_u _ _ _ _ (hnum 48 (by simp) (by decide)),
          sscanf_ws_u_bad _ _ _ _ hnot]
        simp
      · rw [sscanf_u _ _ _ _ (hnum 45 (by simp) (by decide)),
          sscanf_ws_u _ _ _ _ (hnum 46 (by simp) (by decide)),
          sscanf_ws_u _ _ _ _ (hnum 47 (by simp) (by decide)),
          sscanf_ws_u _ _ _ _ (hnum 48 (by simp) (by decide)),
          sscanf_ws_u _ _ _ _ (hnum 49 (by simp) (by decide)),
          sscanf_ws_u_bad _ _ _ _ hnot]
        simp
      · rw [sscanf_u _ _ _ _ (hnum 45 (by simp) (by decide)),
          sscanf_ws_u _ _ _ _ (hnum 46 (by simp) (by decide)),
          sscanf_ws_u _ _ _ _ (hnum 47 (by simp) (by decide)),
          sscanf_ws_u _ _ _ _ (hnum 48 (by simp) (by decide)),
          sscanf_ws_u _ _ _ _ (hnum 49 (by simp) (by decide)),
          sscanf_ws_u _ _ _ _ (hnum 50 (by simp) (by decide)),
          sscanf_ws_u_bad _ _ _ _ hnot]
        simp
    unfold setproctitle_discover
    simp only [h0, h1, h2]
    split
    · split
      · rename_i heq
        rw [heq] at s2
        simp at s2
      · rfl
    · rfl


theorem discover_none_no_paren (buf : List Nat) (h : 41 ∉ cstr buf) :
    setproctitle_discover buf = none := by
  unfold setproctitle_discover
  rw [strrchr_none _ _ h]

theorem discover_none_few_fields (buf pre : List Nat) (fields : List (List Nat))
    (tail : List Nat)
    (hbuf : cstr buf = pre ++ 41 :: join_fields fields tail)
    (hlen : fields.length < 49)
    (hsep : ∀ f ∈ fields, 32 ∉ f ∧ 41 ∉ f)
    (htail : ∀ c ∈ tail, isspace c = true ∧ c ≠ 32)
    (hnum : ∀ f ∈ fields.drop 42, IsNumber f) :
    setproctitle_discover buf = none := by
  have hsp : ∀ f ∈ fields, 32 ∉ f := fun f hf => (hsep f hf).1
  have ht32 : 32 ∉ tail := fun hm => (htail 32 hm).2 rfl
  have ht41 : 41 ∉ tail := fun hm => by
    have := (htail 41 hm).1
    simp [isspace] at this
  have htws : ∀ c ∈ tail, isspace c = true := fun c hc => (htail c hc).1
  have hpar : 41 ∉ join_fields fields tail :=
    not_mem_join_fields 41 (by decide) fields tail (fun f hf => (hsep f hf).2) ht41
  have h0 : strrchr (cstr buf) 41 = some (41 :: join_fields fields tail) := by
    rw [hbuf]
    exact strrchr_last _ _ 41 hpar
  by_cases hA : fields.length ≤ 23
  · have h1 : skip_fields 24 (41 :: join_fields fields tail) = none := by
      have := skip_fields_short 23 41 [] fields tail (by simp) hsp ht32 hA
      rwa [List.nil_append] at this
    unfold setproctitle_discover
    simp only [h0, h1]
  · have hA' : 23 < fields.length := by omega
    have h1 : skip_fields 24 (41 :: join_fields fields tail) =
        some (join_fields (fields.drop 23) tail) := by
      have := skip_fields_join 23 41 [] fields tail (by simp) hsp hA'
      rwa [List.nil_append] at this
    have e23 : join_fields (fields.drop 23) tail =
        32 :: (field fields 26 ++ join_fields (fields.drop 24) tail) := by
      rw [drop_eq_field fields 23 hA', join_fields]
    have h26 : 32 ∉ field fields 26 := by
      have hm : field fields 26 ∈ fields.drop 23 := by
        rw [drop_eq_field fields 23 hA']; exact List.mem_cons_self _ _
      exact hsp _ (List.mem_of_mem_drop hm)
    have hsp24 : ∀ f ∈ fields.drop 24, 32 ∉ f := fun f hf => hsp f (List.mem_of_mem_drop hf)
    by_cases hB : fields.length ≤ 42
    · have h2 : skip_fields 19 (join_fields (fields.drop 23) tail) = none := by
        rw [e23]
        exact skip_fields_short 18 32 _ _ tail h26 hsp24 ht32
          (by rw [List.length_drop]; omega)
      unfold setproctitle_discover
      simp only [h0, h1, h2]
      split <;> rfl
    · have h2 : skip_fields 19 (join_fields (fields.drop 23) tail) =
          some (join_fields (fields.drop 42) tail) := by
        have := skip_fields_join 18 32 (field fields 26) (fields.drop 24) tail h26 hsp24
          (by rw [List.length_drop]; omega)
        rw [List.drop_drop] at this
        rw [e23]
        exact this
      have s2 := sscanf_data_env_short (fields.drop 42) tail hnum htws
        (by rw [List.length_drop]; omega)
      unfold setproctitle_discover
      simp only [h0, h1, h2]
      split
      · split
        · rename_i heq
          rw [heq] at s2
          simp at s2
        · rfl
      · rfl

/-! ### A title longer than an `int` can count -/

theorem title_size_long (n : Nat) :
    title_size (long_title n) = to_uint64 (to_int32 (n + 1)) := by
  unfold title_size title_len
  rw [strlen_long_title]

theorem title_arg_end_long (addr : Ptr) (n : Nat) :
    title_arg_end addr (long_title n) = to_uint64 ((addr : Int) + to_int32 (n + 1)) := by
  unfold title_arg_end title_len
  rw [strlen_long_title]

theorem setproctitle_long_title_run :
    setproctitle sample_state (long_title (2 ^ 32)) (sample_env 4096 0) =
      { ret := 0,
        state := { proctitle := 4096, buf := [0],
                   mm := title_map sample_discovered 9000 4096 4097 },
        trace := [TitleEvent.realloc 1, TitleEvent.brk,
                  TitleEvent.publish (title_map sample_discovered 9000 4096 4097),
                  TitleEvent.copy (long_title (2 ^ 32)) 1] } := by
  have hreach : ReachesRealloc (sample_env 4096 0) sample_discovered := by decide
  have h1 : ¬ (sample_env 4096 0).re.addr = 0 := by decide
  have h2 : (sample_env 4096 0).prctl = 0 := rfl
  have hsize : title_size (long_title (2 ^ 32)) = 1 := by
    rw [title_size_long]; decide
  have hend : title_arg_end (sample_env 4096 0).re.addr (long_title (2 ^ 32)) = 4097 := by
    rw [title_arg_end_long]; decide
  have hlen : (realloc_bytes sample_state.content 1 (sample_env 4096 0).re).length = 1 :=
    realloc_bytes_length _ _ _
  have hmin : min (2 ^ 32) (1 - 1) = 0 := by decide
  have hbuf : (strlcpy (realloc_bytes sample_state.content 1 (sample_env 4096 0).re)
      (long_title (2 ^ 32)) 1).2 = [0] := by
    rw [strlcpy_buffer _ _ 1 (by decide) (Nat.le_of_eq hlen.symm), strlen_long_title, hmin,
      List.take_zero, List.drop_of_length_le (Nat.le_of_eq hlen)]
    rfl
  rw [setproctitle_from_realloc sample_state _ (sample_env 4096 0) sample_discovered hreach,
    if_neg h1, if_pos h2, hsize, hend, hbuf]
  rfl

theorem setproctitle_zero_size_run :
    setproctitle { sample_state with proctitle := 4096, buf := [97, 0] }
        (long_title (2 ^ 32 - 1)) (sample_env 0 0) =
      { ret := -1,
        state := { sample_state with proctitle := 4096, buf := [] },
        trace := [TitleEvent.realloc 0] } := by
  have hreach : ReachesRealloc (sample_env 0 0) sample_discovered := by decide
  have h1 : (sample_env 0 0).re.addr = 0 := rfl
  have hsize : title_size (long_title (2 ^ 32 - 1)) = 0 := by
    rw [title_size_long]; decide
  rw [setproctitle_from_realloc _ _ (sample_env 0 0) sample_discovered hreach,
    if_pos h1, hsize]
  rfl

/-! ### Claims on `setproctitle` -/

/-- Counterexample to C12: the title `"hello"` is published in a six-byte
buffer at address 4096; a call with the shorter title `"a"` whose `prctl` is
rejected returns `-1`, but `realloc` has by then cut the buffer to two bytes:
the title buffer is no longer what it was, and the published argument region
`[4096, 4102)` is no longer backed by it. -/
theorem setproctitle_rejected_cuts_buffer :
    visible_title (setproctitle sample_state [104, 101, 108, 108, 111, 0]
        (sample_env 4096 0)).state = some [104, 101, 108, 108, 111, 0] ∧
    (setproctitle
        (setproctitle sample_state [104, 101, 108, 108, 111, 0] (sample_env 4096 0)).state
        [97, 0] (sample_env 4096 (-1))).ret = -1 ∧
    (setproctitle
        (setproctitle sample_state [104, 101, 108, 108, 111, 0] (sample_env 4096 0)).state
        [97, 0] (sample_env 4096 (-1))).state.buf = [104, 101] ∧
    (setproctitle
        (setproctitle sample_state [104, 101, 108, 108, 111, 0] (sample_env 4096 0)).state
        [97, 0] (sample_env 4096 (-1))).state.buf ≠
      (setproctitle sample_state [104, 101, 108, 108, 111, 0] (sample_env 4096 0)).state.buf ∧
    visible_title (setproctitle
        (setproctitle sample_state [104, 101, 108, 108, 111, 0] (sample_env 4096 0)).state
        [97, 0] (sample_env 4096 (-1))).state = none := by
  decide

/-- C12, amended: when the `PR_SET_MM_MAP` call is rejected (the call having
reached it), `setproctitle` returns the value returned by `prctl`, the
published memory layout is what it was before the call and no byte of the new
title is copied. The title buffer has by then been reallocated, at the address
given by `realloc`, to `len` bytes, `len` being `strlen(title) + 1` converted
to `int` (so `strlen(title) + 1` bytes for a title shorter than `2^31 - 1`
bytes): it keeps the first `min(old size, new size)` bytes of its previous
content, and when the new size is not smaller than the old one and `realloc`
kept the address, the previous buffer and its bytes are where and what they
were. -/
theorem setproctitle_rejected (st : TitleState) (title : List Nat) (env : TitleEnv)
    (d : Discovered) (h : ReachesPrctl env d) (hp : env.prctl ≠ 0) :
    (setproctitle st title env).ret = env.prctl ∧
    (setproctitle st title env).state.mm = st.mm ∧
    (∀ src n, TitleEvent.copy src n ∉ (setproctitle st title env).trace) ∧
    (setproctitle st title env).state.proctitle = env.re.addr ∧
    (setproctitle st title env).state.buf.length = title_size title ∧
    (strlen title + 1 < 2 ^ 31 → title_size title = strlen title + 1) ∧
    (setproctitle st title env).state.buf.take (min st.content.length (title_size title)) =
      st.content.take (min st.content.length (title_size title)) ∧
    (st.content.length ≤ title_size title → env.re.addr = st.proctitle →
      (setproctitle st title env).state.proctitle = st.proctitle ∧
      (setproctitle st title env).state.buf.take st.content.length = st.content) := by
  rw [setproctitle_from_realloc st title env d h.1, if_neg h.2, if_neg hp]
  refine ⟨rfl, rfl, ?_, rfl, realloc_bytes_length _ _ _, title_size_of_fit title,
    realloc_bytes_take _ _ _, ?_⟩
  · intro src n hm
    simp at hm
  · intro hle haddr
    refine ⟨haddr, ?_⟩
    have := realloc_bytes_take st.content (title_size title) env.re
    rw [Nat.min_eq_left hle] at this
    rw [this, List.take_length]

/-- Witness of C12, amended: after `"a"` is published at 4096, a rejected call
with the longer title `"hello"`, `realloc` keeping the address, leaves the
layout and the two bytes of `"a"` as they were, in a buffer of six bytes. -/
theorem setproctitle_rejected_witness :
    (setproctitle { sample_state with proctitle := 4096, buf := [97, 0] }
        [104, 101, 108, 108, 111, 0] (sample_env 4096 (-1))).ret = -1 ∧
    (setproctitle { sample_state with proctitle := 4096, buf := [97, 0] }
        [104, 101, 108, 108, 111, 0] (sample_env 4096 (-1))).state.mm = sample_state.mm ∧
    (setproctitle { sample_state with proctitle := 4096, buf := [97, 0] }
        [104, 101, 108, 108, 111, 0] (sample_env 4096 (-1))).state.buf.length = 6 ∧
    (setproctitle { sample_state with proctitle := 4096, buf := [97, 0] }
        [104, 101, 108, 108, 111, 0] (sample_env 4096 (-1))).state.buf.take 2 = [97, 0] := by
  have h := setproctitle_rejected { sample_state with proctitle := 4096, buf := [97, 0] }
    [104, 101, 108, 108, 111, 0] (sample_env 4096 (-1)) sample_discovered
    (by decide) (by decide)
  exact ⟨h.1, h.2.1, h.2.2.2.2.1.trans (h.2.2.2.2.2.1 (by decide)),
    (h.2.2.2.2.2.2.2 (by decide) rfl).2⟩

/-- Counterexample to C13: a successful call with a title of `2^32` bytes
returns `0`, but `int len` holds `1`: the title buffer has one byte, a NUL,
instead of the `2^32 + 1` bytes of the title and its NUL, and the published
argument region is the one byte `[4096, 4097)`. -/
theorem setproctitle_long_title_cut :
    (setproctitle sample_state (long_title (2 ^ 32)) (sample_env 4096 0)).ret = 0 ∧
    (setproctitle sample_state (long_title (2 ^ 32)) (sample_env 4096 0)).state.buf = [0] ∧
    strlen (long_title (2 ^ 32)) + 1 = 2 ^ 32 + 1 ∧
    (setproctitle sample_state (long_title (2 ^ 32)) (sample_env 4096 0)).state.buf.length
      ≠ strlen (long_title (2 ^ 32)) + 1 ∧
    (setproctitle sample_state (long_title (2 ^ 32)) (sample_env 4096 0)).state.mm.arg_end
      = 4097 := by
  rw [setproctitle_long_title_run, strlen_long_title]
  exact ⟨rfl, rfl, rfl, by decide, rfl⟩

/-- C13, amended: after every successful call of `setproctitle` with a title
shorter than `2^31 - 1` bytes (so that `strlen(title) + 1` fits the `int len`
of the source), the buffer handed out by `realloc` lying inside the 64-bit
address space, and whatever calls came before it (a longer title, then a
shorter one, then the empty string), the call returned `0`, the title buffer
holds exactly the title followed by one NUL and has exactly
`strlen(title) + 1` bytes, and the published argument region
`[arg_start, arg_end)` covers exactly that buffer, so that the observed title
is the last string set, with no byte left of an earlier title. -/
theorem setproctitle_last_title (st : TitleState) (pre : List (List Nat × TitleEnv))
    (title : List Nat) (env : TitleEnv) (d : Discovered)
    (h : ReachesPrctl env d) (hp : env.prctl = 0)
    (hfit : strlen title + 1 < 2 ^ 31)
    (hsp : env.re.addr + (strlen title + 1) < 2 ^ 64) :
    (setproctitle_seq st (pre ++ [(title, env)])).1.getLast? = some 0 ∧
    (setproctitle_seq st (pre ++ [(title, env)])).2.buf = cstr title ++ [0] ∧
    (setproctitle_seq st (pre ++ [(title, env)])).2.buf.length = strlen title + 1 ∧
    (setproctitle_seq st (pre ++ [(title, env)])).2.mm.arg_start =
      (setproctitle_seq st (pre ++ [(title, env)])).2.proctitle ∧
    (setproctitle_seq st (pre ++ [(title, env)])).2.mm.arg_end =
      (setproctitle_seq st (pre ++ [(title, env)])).2.mm.arg_start +
        (setproctitle_seq st (pre ++ [(title, env)])).2.buf.length ∧
    visible_title (setproctitle_seq st (pre ++ [(title, env)])).2 =
      some (cstr title ++ [0]) := by
  have hlen : (cstr title ++ [0]).length = strlen title + 1 := by
    rw [List.length_append, ← strlen_eq_cstr_length]; rfl
  have haddr : env.re.addr ≠ 0 := h.2
  have hrun := setproctitle_fit (setproctitle_seq st pre).2 title env d h hfit hsp
  rw [if_pos hp] at hrun
  have h1 : (setproctitle_seq st (pre ++ [(title, env)])).1 =
      (setproctitle_seq st pre).1 ++ [0] := by
    rw [setproctitle_seq_append, hrun, hp]
  have h2 : (setproctitle_seq st (pre ++ [(title, env)])).2 =
      { proctitle := env.re.addr, buf := cstr title ++ [0],
        mm := title_map d env.brk env.re.addr (env.re.addr + (strlen title + 1)) } := by
    rw [setproctitle_seq_append, hrun]
  rw [h1, h2]
  refine ⟨by simp, rfl, hlen, rfl, ?_, ?_⟩
  · simp only [title_map, hlen]
  · simp only [visible_title, title_map, hlen]
    simp [haddr]

/-- Witness of C13, amended: the titles `"hello"`, then `"a"`, then the empty
string, each set by a successful call; the buffer moves from 4096 to 8192 at
the second call. After each call the observed title is the one just set. -/
theorem setproctitle_last_title_witness :
    visible_title (setproctitle_seq sample_state
      [([104, 101, 108, 108, 111, 0], sample_env 4096 0)]).2
      = some [104, 101, 108, 108, 111, 0] ∧
    visible_title (setproctitle_seq sample_state
      [([104, 101, 108, 108, 111, 0], sample_env 4096 0), ([97, 0], sample_env 8192 0)]).2
      = some [97, 0] ∧
    visible_title (setproctitle_seq sample_state
      [([104, 101, 108, 108, 111, 0], sample_env 4096 0), ([97, 0], sample_env 8192 0),
       ([0], sample_env 8192 0)]).2
      = some [0] :=
  ⟨(setproctitle_last_title sample_state [] [104, 101, 108, 108, 111, 0] (sample_env 4096 0)
      sample_discovered (by decide) rfl (by decide) (by decide)).2.2.2.2.2,
   (setproctitle_last_title sample_state
      [([104, 101, 108, 108, 111, 0], sample_env 4096 0)] [97, 0] (sample_env 8192 0)
      sample_discovered (by decide) rfl (by decide) (by decide)).2.2.2.2.2,
   (setproctitle_last_title sample_state
      [([104, 101, 108, 108, 111, 0], sample_env 4096 0), ([97, 0], sample_env 8192 0)]
      [0] (sample_env 8192 0)
      sample_discovered (by decide) rfl (by decide) (by decide)).2.2.2.2.2⟩

/-- Counterexample to C18: for a title of `2^32` bytes with the buffer at
4096, `int len` holds `1` and the descriptor passed to `prctl` has
`arg_end = 4097`, not `arg_start + strlen(title) + 1 = 4096 + 2^32 + 1`. -/
theorem setproctitle_long_title_arg_end :
    (setproctitle sample_state (long_title (2 ^ 32)) (sample_env 4096 0)).trace =
      [TitleEvent.realloc 1, TitleEvent.brk,
       TitleEvent.publish
         { start_code := 26, end_code := 27, start_data := 45, end_data := 46,
           start_brk := 47, brk := 9000, start_stack := 28, arg_start := 4096,
           arg_end := 4097, env_start := 50, env_end := 51,
           auxv := 0, auxv_size := 0, exe_fd := -1 },
       TitleEvent.copy (long_title (2 ^ 32)) 1] ∧
    4096 + strlen (long_title (2 ^ 32)) + 1 = 4096 + 2 ^ 32 + 1 ∧
    (4097 : Nat) ≠ 4096 + strlen (long_title (2 ^ 32)) + 1 := by
  rw [setproctitle_long_title_run, strlen_long_title]
  exact ⟨rfl, rfl, by decide⟩

/-- C18, amended: in the republish phase of `setproctitle` the descriptor
passed to `prctl` carries the discovered `start_code`, `end_code`,
`start_stack`, `start_data`, `end_data`, `start_brk`, `env_start` and
`env_end` unchanged, the value just returned by the `brk` system call,
`arg_start` equal to the address of the title buffer and
`arg_end = arg_start + len` in `uint64_t`, `len` being `strlen(title) + 1`
converted to `int`: for every title shorter than `2^31 - 1` bytes, the buffer
lying inside the 64-bit address space, `arg_end = arg_start + strlen(title) + 1`
and the copy leaves the title and one NUL in the buffer. The title bytes are
copied into the buffer (by `strlcpy` with size `len`) if and only if `prctl`
returned `0`, and the copy is the last event of the call, after the
publish. -/
theorem setproctitle_republish (st : TitleState) (title : List Nat) (env : TitleEnv)
    (d : Discovered) (h : ReachesPrctl env d) :
    setproctitle st title env =
      (if env.prctl = 0 then
        { ret := env.prctl,
          state :=
            { proctitle := env.re.addr,
              buf := (strlcpy (realloc_bytes st.content (title_size title) env.re)
                title (title_size title)).2,
              mm :=
                { start_code := d.start_code, end_code := d.end_code,
                  start_data := d.start_data, end_data := d.end_data,
                  start_brk := d.start_brk, brk := env.brk, start_stack := d.start_stack,
                  arg_start := env.re.addr, arg_end := title_arg_end env.re.addr title,
                  env_start := d.env_start, env_end := d.env_end,
                  auxv := 0, auxv_size := 0, exe_fd := -1 } },
          trace :=
            [TitleEvent.realloc (title_size title), TitleEvent.brk,
             TitleEvent.publish
               { start_code := d.start_code, end_code := d.end_code,
                 start_data := d.start_data, end_data := d.end_data,
                 start_brk := d.start_brk, brk := env.brk, start_stack := d.start_stack,
                 arg_start := env.re.addr, arg_end := title_arg_end env.re.addr title,
                 env_start := d.env_start, env_end := d.env_end,
                 auxv := 0, auxv_size := 0, exe_fd := -1 },
             TitleEvent.copy title (title_size title)] }
      else
        { ret := env.prctl,
          state :=
            { proctitle := env.re.addr,
              buf := realloc_bytes st.content (title_size title) env.re,
              mm := st.mm },
          trace :=
            [TitleEvent.realloc (title_size title), TitleEvent.brk,
             TitleEvent.publish
               { start_code := d.start_code, end_code := d.end_code,
                 start_data := d.start_data, end_data := d.end_data,
                 start_brk := d.start_brk, brk := env.brk, start_stack := d.start_stack,
                 arg_start := env.re.addr, arg_end := title_arg_end env.re.addr title,
                 env_start := d.env_start, env_end := d.env_end,
                 auxv := 0, auxv_size := 0, exe_fd := -1 }] }) ∧
    ((∃ src n, TitleEvent.copy src n ∈ (setproctitle st title env).trace) ↔
      env.prctl = 0) ∧
    (strlen title + 1 < 2 ^ 31 → env.re.addr + (strlen title + 1) < 2 ^ 64 →
      title_size title = strlen title + 1 ∧
      title_arg_end env.re.addr title = env.re.addr + (strlen title + 1) ∧
      (strlcpy (realloc_bytes st.content (strlen title + 1) env.re) title
        (strlen title + 1)).2 = cstr title ++ [0]) := by
  have hrun := setproctitle_from_realloc st title env d h.1
  rw [if_neg h.2] at hrun
  refine ⟨?_, ?_, ?_⟩
  · rw [hrun]
    simp only [title_map]
  · by_cases hp : env.prctl = 0
    · rw [hrun, if_pos hp]
      exact ⟨fun _ => hp, fun _ => ⟨title, title_size title,
        List.mem_cons_of_mem _ (List.mem_cons_of_mem _ (List.mem_cons_of_mem _
          (List.mem_cons_self _ _)))⟩⟩
    · rw [hrun, if_neg hp]
      constructor
      · rintro ⟨src, n, hm⟩
        simp at hm
      · intro h0
        exact absurd h0 hp
  · intro hfit hsp
    exact ⟨title_size_of_fit title hfit, title_arg_end_of_fit _ title hfit hsp,
      strlcpy_exact_fit _ _ (realloc_bytes_length _ _ _)⟩

/-- Witness of C18, amended: the title `"hello"` on the sample line, the buffer
at 4096, `brk` answering 9000, once with `prctl` accepting and once
rejecting. -/
theorem setproctitle_republish_witness :
    setproctitle sample_state [104, 101, 108, 108, 111, 0] (sample_env 4096 0) =
      { ret := 0,
        state :=
          { proctitle := 4096, buf := [104, 101, 108, 108, 111, 0],
            mm :=
              { start_code := 26, end_code := 27, start_data := 45, end_data := 46,
                start_brk := 47, brk := 9000, start_stack := 28, arg_start := 4096,
                arg_end := 4102, env_start := 50, env_end := 51,
                auxv := 0, auxv_size := 0, exe_fd := -1 } },
        trace :=
          [TitleEvent.realloc 6, TitleEvent.brk,
           TitleEvent.publish
             { start_code := 26, end_code := 27, start_data := 45, end_data := 46,
               start_brk := 47, brk := 9000, start_stack := 28, arg_start := 4096,
               arg_end := 4102, env_start := 50, env_end := 51,
               auxv := 0, auxv_size := 0, exe_fd := -1 },
           TitleEvent.copy [104, 101, 108, 108, 111, 0] 6] } ∧
    (setproctitle sample_state [104, 101, 108, 108, 111, 0] (sample_env 4096 (-1))).trace =
      [TitleEvent.realloc 6, TitleEvent.brk,
       TitleEvent.publish
         { start_code := 26, end_code := 27, start_data := 45, end_data := 46,
           start_brk := 47, brk := 9000, start_stack := 28, arg_start := 4096,
           arg_end := 4102, env_start := 50, env_end := 51,
           auxv := 0, auxv_size := 0, exe_fd := -1 }] :=
  ⟨(setproctitle_republish sample_state [104, 101, 108, 108, 111, 0] (sample_env 4096 0)
      sample_discovered (by decide)).1.trans (by decide),
   (congrArg TitleResult.trace
     (setproctitle_republish sample_state [104, 101, 108, 108, 111, 0]
       (sample_env 4096 (-1)) sample_discovered (by decide)).1).trans (by decide)⟩

end ProcessUtils
